import Mathlib

/-!
Verification of the `push` package (go-push-components): a shallow embedding of
`PushQueue` (pushQueue.go), `PushStack` (pushStack.go) and `PushBatchQueue`
(pushBatchQueue.go), together with theorems settling the specification claims.

Modelling conventions.
The three machines are embedded as pure state-transition functions.  The Go
mutex serializes every critical section, so the embedding is a sequential
interleaving model: each critical section of the source is one atomic step.
Invocations of client callbacks (the worker, `onOverload`, `onFirstOverload`,
`onDrained`) and dispatch triggers (`go q.get()` / `go s.pop()`) are recorded
in an event log carried by the state; an event records whether the callback was
invoked while the machine's lock was held.  Handler registration is modelled by
three booleans (a registered handler is a non-nil function in Go).  Go `int`
fields are modelled as unbounded `Int`; Go slices of `interface{}` are modelled
by `GoSlice` below, and a Go runtime panic is modelled by a sticky `panicked`
flag (the trace makes no further progress once a panic occurred).
-/

namespace PushComponents

/-- Model of a Go slice of interface values.  `back` is the backing array from
the slice's offset to its capacity end; a cell is an `Option` value, `none`
being Go's nil zero value of an uninitialized (or stale) cell.  `len` is the
slice length and the Go capacity is `back.length`.  Extra capacity produced by
`append` reallocation is not modelled: it could only change which slice
expression of an overloaded insertion on an empty buffer panics first
(`s[:1]` versus `s[1:]`), never whether the insertion panics. -/
structure GoSlice (α : Type) where
  back : List (Option α)
  len : Nat
deriving DecidableEq

namespace GoSlice

/-- Go `make([]T, 0, c)`: `c` zero-valued cells, length 0. -/
def make (α : Type) (c : Nat) : GoSlice α := ⟨List.replicate c none, 0⟩

/-- Go `cap(s)`. -/
def cap (s : GoSlice α) : Nat := s.back.length

/-- The values visible in the slice, i.e. `s[0:len]`. -/
def elems (s : GoSlice α) : List (Option α) := s.back.take s.len

/-- Go `append(s, x)`: write into the backing array when capacity remains,
otherwise reallocate (copying the visible elements). -/
def gappend (s : GoSlice α) (x : α) : GoSlice α :=
  if s.len < s.back.length then ⟨s.back.set s.len (some x), s.len + 1⟩
  else ⟨s.back.take s.len ++ [some x], s.len + 1⟩

/-- Go `s[1:]`.  Callers establish `1 ≤ s.len`; on an empty slice Go panics
with index out of range `[1:0]`, which the machines model via `panicked`. -/
def dropFirst (s : GoSlice α) : GoSlice α := ⟨s.back.drop 1, s.len - 1⟩

/-- Go `s[:n]` for `n ≤ s.len`: same backing array, shorter visible part. -/
def truncate (s : GoSlice α) (n : Nat) : GoSlice α := ⟨s.back, n⟩

/-- Go `s[n:]` for `n ≤ s.len`. -/
def dropN (s : GoSlice α) (n : Nat) : GoSlice α := ⟨s.back.drop n, s.len - n⟩

/-- Go `s[0]` on a slice whose capacity is at least 1 (for example after
re-slicing as `s[:1]`): the first backing cell. -/
def head0 (s : GoSlice α) : Option α := s.back.headD none

/-- Go `s[i]` read from the backing array. -/
def cellAt (s : GoSlice α) (i : Nat) : Option α := s.back.getD i none

theorem take_set_eq (l : List β) (n : Nat) (a : β) (h : n < l.length) :
    (l.set n a).take (n + 1) = l.take n ++ [a] := by
  induction l generalizing n with
  | nil => simp at h
  | cons hd tl ih =>
    cases n with
    | zero => simp
    | succ m =>
      simp only [List.set_cons_succ, List.take_succ_cons, List.cons_append]
      rw [ih m (by simpa using h)]

theorem gappend_elems (s : GoSlice α) (x : α) :
    (s.gappend x).elems = s.elems ++ [some x] := by
  unfold gappend elems
  split
  · next h => exact take_set_eq s.back s.len (some x) h
  · next h =>
    push_neg at h
    rw [List.take_of_length_le h]
    exact List.take_of_length_le (by simp; omega)

theorem gappend_len (s : GoSlice α) (x : α) : (s.gappend x).len = s.len + 1 := by
  unfold gappend; split <;> rfl

theorem dropFirst_elems (s : GoSlice α) (h : 1 ≤ s.len) :
    s.dropFirst.elems = s.elems.tail := by
  unfold dropFirst elems
  obtain ⟨m, hm⟩ : ∃ m, s.len = m + 1 := ⟨s.len - 1, by omega⟩
  cases s.back with
  | nil => simp
  | cons b bs => simp [hm]

theorem dropFirst_len (s : GoSlice α) : s.dropFirst.len = s.len - 1 := rfl

theorem dropN_elems (s : GoSlice α) (n : Nat) :
    (s.dropN n).elems = s.elems.drop n := by
  unfold dropN elems
  rw [List.drop_take]

theorem truncate_elems (s : GoSlice α) (n : Nat) (h : n ≤ s.len) :
    (s.truncate n).elems = s.elems.take n := by
  unfold truncate elems
  rw [List.take_take, Nat.min_eq_left h]

theorem make_len (α : Type) (c : Nat) : (make α c).len = 0 := rfl

theorem make_elems (α : Type) (c : Nat) : (make α c).elems = [] := by
  unfold make elems; simp

theorem make_wf (α : Type) (c : Nat) : (make α c).len ≤ (make α c).cap := by
  simp [make, cap]

theorem gappend_wf (s : GoSlice α) (x : α) (h : s.len ≤ s.cap) :
    (s.gappend x).len ≤ (s.gappend x).cap := by
  unfold gappend cap at *
  split
  · next hlt => simp only [List.length_set]; omega
  · next hge =>
    simp only [List.length_append, List.length_take, List.length_cons,
      List.length_nil]
    omega

theorem dropFirst_wf (s : GoSlice α) (h : s.len ≤ s.cap) :
    s.dropFirst.len ≤ s.dropFirst.cap := by
  unfold dropFirst cap at *
  simp only [List.length_drop]
  omega

theorem dropN_wf (s : GoSlice α) (n : Nat) (h : s.len ≤ s.cap) :
    (s.dropN n).len ≤ (s.dropN n).cap := by
  unfold dropN cap at *
  simp only [List.length_drop]
  omega

theorem elems_head (s : GoSlice α) (h1 : 1 ≤ s.len) (hwf : s.len ≤ s.cap) :
    s.elems = s.head0 :: s.elems.tail := by
  unfold elems head0 cap at *
  obtain ⟨m, hm⟩ : ∃ m, s.len = m + 1 := ⟨s.len - 1, by omega⟩
  cases hb : s.back with
  | nil =>
    rw [hb] at hwf
    simp at hwf
    omega
  | cons b bs => simp [hm]

end GoSlice

/-- An entry of a machine's instrumentation log.  `h` is the type of values a
Go overload handler receives, `w` the type of values a worker invocation
receives.  `lockHeld` records whether the callback body runs while the
machine's mutex is held by the caller (callbacks launched with `go` run on
their own goroutine, after the caller's critical section: `lockHeld = false`).
`dispatchTriggered` records a `go q.get()` / `go s.pop()` dispatch attempt. -/
inductive PEvent (h w : Type) where
  | overloadCalled (v : h) (lockHeld : Bool)
  | firstOverloadCalled (v : h) (lockHeld : Bool)
  | drainedFired (lockHeld : Bool)
  | dispatchTriggered
  | workerInvoked (v : w)
deriving DecidableEq

namespace PEvent

def isOverloadEv : PEvent h w → Bool
  | .overloadCalled _ _ => true
  | _ => false

def isFirstOverloadEv : PEvent h w → Bool
  | .firstOverloadCalled _ _ => true
  | _ => false

def isDrainedEv : PEvent h w → Bool
  | .drainedFired _ => true
  | _ => false

def isLockedDrainedEv : PEvent h w → Bool
  | .drainedFired b => b
  | _ => false

def isDispatchEv : PEvent h w → Bool
  | .dispatchTriggered => true
  | _ => false

def isLockedHandlerEv : PEvent h w → Bool
  | .overloadCalled _ b => b
  | .firstOverloadCalled _ b => b
  | _ => false

end PEvent

/-- Number of `onOverload` invocations recorded in a log. -/
def countOverload (evs : List (PEvent h w)) : Nat := evs.countP PEvent.isOverloadEv

/-- Number of `onFirstOverload` invocations recorded in a log. -/
def countFirstOverload (evs : List (PEvent h w)) : Nat :=
  evs.countP PEvent.isFirstOverloadEv

/-- Number of `onDrained` invocations recorded in a log. -/
def countDrained (evs : List (PEvent h w)) : Nat := evs.countP PEvent.isDrainedEv

/-- Number of `onDrained` invocations recorded as running under the lock. -/
def countLockedDrained (evs : List (PEvent h w)) : Nat :=
  evs.countP PEvent.isLockedDrainedEv

/-- Number of dispatch attempts (`go q.get()` / `go s.pop()`) recorded. -/
def countDispatch (evs : List (PEvent h w)) : Nat := evs.countP PEvent.isDispatchEv

/-- Number of worker invocations carrying the value `v`. -/
def countWorker [DecidableEq h] [DecidableEq w] (evs : List (PEvent h w)) (v : w) : Nat :=
  evs.countP fun e => decide (e = PEvent.workerInvoked v)

/-- State of a `PushQueue` (pushQueue.go).  The `worker` function field is
modelled by the `workerInvoked` instrumentation events (the claims all concern
machines with a configured worker); the `mutex` field is modelled by the
sequential-step semantics together with the `lockHeld` flag of handler events.
`events` (the instrumentation log, newest first) and `panicked` (a Go runtime
panic occurred) are model-only fields. -/
structure PushQueue (α : Type) where
  concurrency : Int
  availableWorkers : Int
  depth : Int
  items : GoSlice α
  started : Bool
  draining : Bool
  overload : Int
  dropOldestOnOverload : Bool
  onOverloadSet : Bool
  onFirstOverloadSet : Bool
  onDrainedSet : Bool
  events : List (PEvent (Option α) (Option α))
  panicked : Bool
deriving DecidableEq

/-- `NewPushQueue`: `none` models the constructor panic on a non-positive
concurrency or depth. -/
def NewPushQueue (α : Type) (concurrency depth : Int) : Option (PushQueue α) :=
  if 1 ≤ concurrency ∧ 1 ≤ depth then
    some { concurrency := concurrency
           availableWorkers := concurrency
           depth := depth
           items := GoSlice.make α depth.toNat
           started := false
           draining := false
           overload := 0
           dropOldestOnOverload := false
           onOverloadSet := false
           onFirstOverloadSet := false
           onDrainedSet := false
           events := []
           panicked := false }
  else none

namespace PushQueue

/-- `Count`: the current number of items in the queue (`len(q.items)`). -/
def Count (s : PushQueue α) : Int := (s.items.len : Int)

/-- `Depth`: the maximum capacity of the queue. -/
def Depth (s : PushQueue α) : Int := s.depth

/-- `IsFull`. -/
def IsFull (s : PushQueue α) : Bool := decide (s.Depth ≤ s.Count)

/-- `IsStarted`. -/
def IsStarted (s : PushQueue α) : Bool := s.started

/-- `OverloadCount`. -/
def OverloadCount (s : PushQueue α) : Int := s.overload

/-- `Start` (the worker is modelled as always configured, so the nil-worker
panic branch does not arise). -/
def Start (s : PushQueue α) : PushQueue α :=
  { s with started := true, draining := false, overload := 0 }

/-- `Stop`. -/
def Stop (s : PushQueue α) : PushQueue α :=
  { s with started := false, draining := false }

/-- `OnDrained(f)` with a non-nil handler. -/
def OnDrained (s : PushQueue α) : PushQueue α := { s with onDrainedSet := true }

/-- `OnOverload(f)` with a non-nil handler. -/
def OnOverload (s : PushQueue α) : PushQueue α := { s with onOverloadSet := true }

/-- `OnFirstOverload(f)` with a non-nil handler. -/
def OnFirstOverload (s : PushQueue α) : PushQueue α :=
  { s with onFirstOverloadSet := true }

/-- `DropOldestOnOverload()`. -/
def DropOldestOnOverload (s : PushQueue α) : PushQueue α :=
  { s with dropOldestOnOverload := true }

/-- `setDrained`: launches `go q.onDrained()` when a handler is registered (the
handler body runs on its own goroutine, not under the lock) and clears the
draining flag. -/
def setDrained (s : PushQueue α) : PushQueue α :=
  { s with
    events := if s.onDrainedSet then .drainedFired false :: s.events else s.events
    draining := false }

/-- `Drain`. -/
def Drain (s : PushQueue α) : PushQueue α :=
  let s1 := { s with draining := true, started := false }
  if s1.Count = 0 ∧ s1.availableWorkers = s1.concurrency then setDrained s1 else s1

/-- `Empty`: replaces the items slice by `make([]QueueItem, 0, q.Depth())`. -/
def Empty (s : PushQueue α) : PushQueue α :=
  { s with items := GoSlice.make α s.depth.toNat }

/-- The tail of `Put`'s overload branch: `q.overload++`, then the handler
calls.  Go invokes `q.onOverload(dropItem)` and possibly
`q.onFirstOverload(dropItem)` directly inside the critical section (the
deferred `q.mutex.Unlock()` runs only after them), hence `lockHeld = true`. -/
def finishOverload (dropItem : Option α) (s : PushQueue α) : PushQueue α :=
  let s1 := { s with overload := s.overload + 1 }
  let s2 := if s1.onOverloadSet then
      { s1 with events := .overloadCalled dropItem true :: s1.events } else s1
  if s1.overload = 1 ∧ s1.onFirstOverloadSet then
    { s2 with events := .firstOverloadCalled dropItem true :: s2.events } else s2

/-- `Put(item)`.  On overload with `dropOldestOnOverload` and an empty buffer
the Go code panics: `q.items[1:]` is out of range `[1:0]` (and when the
capacity is also 0, already `q.items[:1]` is out of range); no field is
mutated and no handler runs before the panic, so the model freezes the state
with `panicked := true`. -/
def Put (s : PushQueue α) (x : α) : PushQueue α :=
  if s.Depth ≤ s.Count ∨ s.draining then
    if s.dropOldestOnOverload then
      if 1 ≤ s.items.len then
        let dropItem := s.items.head0
        finishOverload dropItem
          { s with items := (s.items.dropFirst).gappend x
                   events := .dispatchTriggered :: s.events }
      else
        { s with panicked := true }
    else
      finishOverload (some x) s
  else
    { s with items := s.items.gappend x
             events := .dispatchTriggered :: s.events }

/-- `readyToWork`. -/
def readyToWork (s : PushQueue α) : Bool :=
  (s.started || s.draining) && decide (0 < s.availableWorkers)
    && decide (0 < s.items.len)

/-- The critical section of `get`: take a worker slot and the head item, then
(after releasing the lock) `doWork` invokes the worker with it.  The source
checks `readyToWork` both before and after taking the lock; in this sequential
model the two checks coincide.  The rest of `doWork` (waiting for the worker
and calling `workerCompleted`) and the dispatch retrigger at the end of `get`
are modelled by `workerCompleted` below, since they run only after the worker
invocation finishes. -/
def get (s : PushQueue α) : PushQueue α :=
  if ¬ s.readyToWork then s
  else
    { s with availableWorkers := s.availableWorkers - 1
             items := s.items.dropFirst
             events := .workerInvoked s.items.head0 :: s.events }

/-- `workerCompleted`, followed by the retrigger at the tail of `get` (in the
source, `doWork` runs inside `get`, so after `workerCompleted` returns, `get`
itself runs `go q.get()` unless the queue is draining). -/
def workerCompleted (s : PushQueue α) : PushQueue α :=
  let s1 := if s.availableWorkers < s.concurrency
            then { s with availableWorkers := s.availableWorkers + 1 } else s
  let s2 :=
    if s1.availableWorkers = s1.concurrency ∧ s1.items.len = 0 ∧ s1.draining
    then setDrained s1
    else { s1 with events := .dispatchTriggered :: s1.events }
  if s2.draining then s2
  else { s2 with events := .dispatchTriggered :: s2.events }

end PushQueue

/-- One atomic step of the queue machine: an insertion, a dispatch step, a
worker completion, or an administrative call. -/
inductive QOp (α : Type) where
  | put (x : α)
  | get
  | workerCompleted
  | start
  | stop
  | drain
  | empty
deriving DecidableEq

/-- Execute one step.  After a Go panic the program has crashed, so a panicked
state takes no further steps. -/
def qstep (op : QOp α) (s : PushQueue α) : PushQueue α :=
  if s.panicked then s
  else
    match op with
    | .put x => s.Put x
    | .get => s.get
    | .workerCompleted => s.workerCompleted
    | .start => s.Start
    | .stop => s.Stop
    | .drain => s.Drain
    | .empty => s.Empty

/-- Execute a sequence of steps (one arbitrary interleaving of the concurrent
goroutines, at critical-section granularity). -/
def qexec (ops : List (QOp α)) (s : PushQueue α) : PushQueue α :=
  ops.foldl (fun t op => qstep op t) s

/-- The dynamic type of a Go `interface{}` value handed to a stack handler:
either a bare stack item, or a `[]StackItem` slice (in `PushStack.Push` the
value passed to `onOverload` and `onFirstOverload` is the slice
`s.items[:1]`, not the item it contains). -/
inductive StackArg (α : Type) where
  | item (v : Option α)
  | slice (l : List (Option α))
deriving DecidableEq

/-- State of a `PushStack` (pushStack.go).  Same modelling conventions as
`PushQueue`; note the source has no `dropOldestOnOverload` field for the
stack. -/
structure PushStack (α : Type) where
  concurrency : Int
  availableWorkers : Int
  height : Int
  items : GoSlice α
  started : Bool
  draining : Bool
  overload : Int
  onOverloadSet : Bool
  onFirstOverloadSet : Bool
  onDrainedSet : Bool
  events : List (PEvent (StackArg α) (Option α))
  panicked : Bool
deriving DecidableEq

/-- `NewPushStack`: `none` models the constructor panic on a non-positive
concurrency or height. -/
def NewPushStack (α : Type) (concurrency height : Int) : Option (PushStack α) :=
  if 1 ≤ concurrency ∧ 1 ≤ height then
    some { concurrency := concurrency
           availableWorkers := concurrency
           height := height
           items := GoSlice.make α height.toNat
           started := false
           draining := false
           overload := 0
           onOverloadSet := false
           onFirstOverloadSet := false
           onDrainedSet := false
           events := []
           panicked := false }
  else none

namespace PushStack

/-- `Count`. -/
def Count (s : PushStack α) : Int := (s.items.len : Int)

/-- `Height`. -/
def Height (s : PushStack α) : Int := s.height

/-- `IsFull`. -/
def IsFull (s : PushStack α) : Bool := decide (s.Height ≤ s.Count)

/-- `IsStarted`. -/
def IsStarted (s : PushStack α) : Bool := s.started

/-- `Overload`. -/
def Overload (s : PushStack α) : Int := s.overload

/-- `Start` (pushStack.go's `Start` sets the flags only; it does not trigger a
dispatch attempt). -/
def Start (s : PushStack α) : PushStack α :=
  { s with started := true, draining := false, overload := 0 }

/-- `Stop`. -/
def Stop (s : PushStack α) : PushStack α :=
  { s with started := false, draining := false }

/-- `OnDrained(f)` with a non-nil handler. -/
def OnDrained (s : PushStack α) : PushStack α := { s with onDrainedSet := true }

/-- `OnOverload(f)` with a non-nil handler. -/
def OnOverload (s : PushStack α) : PushStack α := { s with onOverloadSet := true }

/-- `OnFirstOverload(f)` with a non-nil handler. -/
def OnFirstOverload (s : PushStack α) : PushStack α :=
  { s with onFirstOverloadSet := true }

/-- `setDrained`: `go s.onDrained()` (handler body not under the lock), then
clear the draining flag. -/
def setDrained (s : PushStack α) : PushStack α :=
  { s with
    events := if s.onDrainedSet then .drainedFired false :: s.events else s.events
    draining := false }

/-- `Drain` (pushStack.go's `Drain` does not trigger a dispatch attempt). -/
def Drain (s : PushStack α) : PushStack α :=
  let s1 := { s with draining := true, started := false }
  if s1.Count = 0 ∧ s1.availableWorkers = s1.concurrency then setDrained s1 else s1

/-- `Empty`. -/
def Empty (s : PushStack α) : PushStack α :=
  { s with items := GoSlice.make α s.height.toNat }

/-- The tail of `Push`'s overload branch: `s.overload++` and the handler calls,
made inside the critical section (`lockHeld = true`). -/
def sFinishOverload (dropItem : StackArg α) (s : PushStack α) : PushStack α :=
  let s1 := { s with overload := s.overload + 1 }
  let s2 := if s1.onOverloadSet then
      { s1 with events := .overloadCalled dropItem true :: s1.events } else s1
  if s1.overload = 1 ∧ s1.onFirstOverloadSet then
    { s2 with events := .firstOverloadCalled dropItem true :: s2.events } else s2

/-- `Push(item)`.  The overload branch always evicts the bottom of the stack:
`firstItem := s.items[:1]` (a one-element slice, which is the value the
handlers receive), then `s.items = append(s.items[1:], item)` and
`go s.pop()`.  On an empty buffer Go panics in those slice expressions, as in
`PushQueue.Put`. -/
def Push (s : PushStack α) (x : α) : PushStack α :=
  if s.Height ≤ s.Count ∨ s.draining then
    if 1 ≤ s.items.len then
      let firstItem := StackArg.slice (s.items.truncate 1).elems
      sFinishOverload firstItem
        { s with items := (s.items.dropFirst).gappend x
                 events := .dispatchTriggered :: s.events }
    else
      { s with panicked := true }
  else
    { s with items := s.items.gappend x
             events := .dispatchTriggered :: s.events }

/-- `readyToWork`. -/
def readyToWork (s : PushStack α) : Bool :=
  (s.started || s.draining) && decide (0 < s.availableWorkers)
    && decide (0 < s.items.len)

/-- `workerCompleted`. -/
def workerCompleted (s : PushStack α) : PushStack α :=
  let s1 := if s.availableWorkers < s.concurrency
            then { s with availableWorkers := s.availableWorkers + 1 } else s
  if s1.draining ∧ s1.availableWorkers = s1.concurrency ∧ s1.items.len = 0
  then setDrained s1
  else { s1 with events := .dispatchTriggered :: s1.events }

/-- `pop`, with `doWork` inlined as in the source: take a slot and the top
item (`item := s.items[lastIndex:][0]`, `s.items = s.items[:lastIndex]`),
invoke the worker once through `doWork` (which then calls `workerCompleted`),
then run the additional `go s.worker(item)` found in `pop` — a second worker
invocation with the same item — and finally retrigger dispatch unless
draining. -/
def pop (s : PushStack α) : PushStack α :=
  if ¬ s.readyToWork then s
  else
    let lastIndex := s.items.len - 1
    let item := s.items.cellAt lastIndex
    let s1 := { s with availableWorkers := s.availableWorkers - 1
                       items := s.items.truncate lastIndex }
    let s2 := workerCompleted { s1 with events := .workerInvoked item :: s1.events }
    let s3 := { s2 with events := .workerInvoked item :: s2.events }
    if s3.draining then s3
    else { s3 with events := .dispatchTriggered :: s3.events }

end PushStack

/-- State of a `PushBatchQueue` (pushBatchQueue.go).  Same modelling
conventions as `PushQueue`; a worker invocation receives a batch (the visible
values of the slice `q.items[:lastIndex]`). -/
structure PushBatchQueue (α : Type) where
  concurrency : Int
  batchSize : Int
  availableWorkers : Int
  depth : Int
  items : GoSlice α
  started : Bool
  draining : Bool
  overload : Int
  dropOldestOnOverload : Bool
  onOverloadSet : Bool
  onFirstOverloadSet : Bool
  onDrainedSet : Bool
  events : List (PEvent (Option α) (List (Option α)))
  panicked : Bool
deriving DecidableEq

/-- `NewPushBatchQueue`: `none` models the constructor panic on a non-positive
concurrency, depth or batch size. -/
def NewPushBatchQueue (α : Type) (concurrency depth batchSize : Int) :
    Option (PushBatchQueue α) :=
  if 1 ≤ concurrency ∧ 1 ≤ depth ∧ 1 ≤ batchSize then
    some { concurrency := concurrency
           batchSize := batchSize
           availableWorkers := concurrency
           depth := depth
           items := GoSlice.make α depth.toNat
           started := false
           draining := false
           overload := 0
           dropOldestOnOverload := false
           onOverloadSet := false
           onFirstOverloadSet := false
           onDrainedSet := false
           events := []
           panicked := false }
  else none

namespace PushBatchQueue

/-- `Count`. -/
def Count (s : PushBatchQueue α) : Int := (s.items.len : Int)

/-- `Depth`. -/
def Depth (s : PushBatchQueue α) : Int := s.depth

/-- `IsFull`. -/
def IsFull (s : PushBatchQueue α) : Bool := decide (s.Depth ≤ s.Count)

/-- `IsStarted`. -/
def IsStarted (s : PushBatchQueue α) : Bool := s.started

/-- `OverloadCount`. -/
def OverloadCount (s : PushBatchQueue α) : Int := s.overload

/-- `Start`: sets the flags and triggers `go q.get()`. -/
def Start (s : PushBatchQueue α) : PushBatchQueue α :=
  { s with started := true, draining := false, overload := 0
           events := .dispatchTriggered :: s.events }

/-- `Stop`. -/
def Stop (s : PushBatchQueue α) : PushBatchQueue α :=
  { s with started := false, draining := false }

/-- `OnDrained(f)` with a non-nil handler. -/
def OnDrained (s : PushBatchQueue α) : PushBatchQueue α :=
  { s with onDrainedSet := true }

/-- `OnOverload(f)` with a non-nil handler. -/
def OnOverload (s : PushBatchQueue α) : PushBatchQueue α :=
  { s with onOverloadSet := true }

/-- `OnFirstOverload(f)` with a non-nil handler. -/
def OnFirstOverload (s : PushBatchQueue α) : PushBatchQueue α :=
  { s with onFirstOverloadSet := true }

/-- `DropOldestOnOverload()`. -/
def DropOldestOnOverload (s : PushBatchQueue α) : PushBatchQueue α :=
  { s with dropOldestOnOverload := true }

/-- `setDrained`. -/
def setDrained (s : PushBatchQueue α) : PushBatchQueue α :=
  { s with
    events := if s.onDrainedSet then .drainedFired false :: s.events else s.events
    draining := false }

/-- `Drain`: sets the flags, possibly fires the drained event, then triggers
`go q.get()`. -/
def Drain (s : PushBatchQueue α) : PushBatchQueue α :=
  let s1 := { s with draining := true, started := false }
  let s2 := if s1.Count = 0 ∧ s1.availableWorkers = s1.concurrency
            then setDrained s1 else s1
  { s2 with events := .dispatchTriggered :: s2.events }

/-- `Empty`. -/
def Empty (s : PushBatchQueue α) : PushBatchQueue α :=
  { s with items := GoSlice.make α s.depth.toNat }

/-- The tail of `Put`'s overload branch (handlers called under the lock). -/
def bFinishOverload (dropItem : Option α) (s : PushBatchQueue α) :
    PushBatchQueue α :=
  let s1 := { s with overload := s.overload + 1 }
  let s2 := if s1.onOverloadSet then
      { s1 with events := .overloadCalled dropItem true :: s1.events } else s1
  if s1.overload = 1 ∧ s1.onFirstOverloadSet then
    { s2 with events := .firstOverloadCalled dropItem true :: s2.events } else s2

/-- `Put(item)`: identical to `PushQueue.Put`. -/
def Put (s : PushBatchQueue α) (x : α) : PushBatchQueue α :=
  if s.Depth ≤ s.Count ∨ s.draining then
    if s.dropOldestOnOverload then
      if 1 ≤ s.items.len then
        let dropItem := s.items.head0
        bFinishOverload dropItem
          { s with items := (s.items.dropFirst).gappend x
                   events := .dispatchTriggered :: s.events }
      else
        { s with panicked := true }
    else
      bFinishOverload (some x) s
  else
    { s with items := s.items.gappend x
             events := .dispatchTriggered :: s.events }

/-- `readyToWork`. -/
def readyToWork (s : PushBatchQueue α) : Bool :=
  (s.started || s.draining) && decide (0 < s.availableWorkers)
    && decide (0 < s.items.len)

/-- The critical section of `get`: `lastIndex := q.batchSize`, clamped to
`len(q.items)`; the batch `q.items[:lastIndex]` is removed from the buffer and
handed to one worker invocation (`doWork(batch)`). -/
def get (s : PushBatchQueue α) : PushBatchQueue α :=
  if ¬ s.readyToWork then s
  else
    let lastIndex : Int :=
      if (s.items.len : Int) < s.batchSize then (s.items.len : Int) else s.batchSize
    let batch := (s.items.truncate lastIndex.toNat).elems
    { s with availableWorkers := s.availableWorkers - 1
             items := s.items.dropN lastIndex.toNat
             events := .workerInvoked batch :: s.events }

/-- `workerCompleted`, followed by the retrigger at the tail of `get` (as in
`PushQueue.workerCompleted`). -/
def workerCompleted (s : PushBatchQueue α) : PushBatchQueue α :=
  let s1 := if s.availableWorkers < s.concurrency
            then { s with availableWorkers := s.availableWorkers + 1 } else s
  let s2 :=
    if s1.availableWorkers = s1.concurrency ∧ s1.items.len = 0 ∧ s1.draining
    then setDrained s1
    else { s1 with events := .dispatchTriggered :: s1.events }
  if s2.draining then s2
  else { s2 with events := .dispatchTriggered :: s2.events }

end PushBatchQueue

/-- One atomic step of the batch-queue machine. -/
inductive BOp (α : Type) where
  | put (x : α)
  | get
  | workerCompleted
  | start
  | stop
  | drain
  | empty
deriving DecidableEq

/-- Execute one batch-queue step (panicked states take no further steps). -/
def bstep (op : BOp α) (s : PushBatchQueue α) : PushBatchQueue α :=
  if s.panicked then s
  else
    match op with
    | .put x => s.Put x
    | .get => s.get
    | .workerCompleted => s.workerCompleted
    | .start => s.Start
    | .stop => s.Stop
    | .drain => s.Drain
    | .empty => s.Empty

/-- Execute a sequence of batch-queue steps. -/
def bexec (ops : List (BOp α)) (s : PushBatchQueue α) : PushBatchQueue α :=
  ops.foldl (fun t op => bstep op t) s

/-! Concrete example states used by the claim theorems. -/

/-- A started queue of depth 2, empty buffer, all handlers registered. -/
def qEmptyStarted : PushQueue Nat :=
  { concurrency := 1, availableWorkers := 1, depth := 2
    items := ⟨[none, none], 0⟩
    started := true, draining := false, overload := 0
    dropOldestOnOverload := false
    onOverloadSet := true, onFirstOverloadSet := true, onDrainedSet := true
    events := [], panicked := false }

/-- A started full queue of depth 1 with the default drop-incoming policy. -/
def qFullDropIncoming : PushQueue Nat :=
  { concurrency := 1, availableWorkers := 1, depth := 1
    items := ⟨[some 1], 1⟩
    started := true, draining := false, overload := 0
    dropOldestOnOverload := false
    onOverloadSet := true, onFirstOverloadSet := true, onDrainedSet := true
    events := [], panicked := false }

/-- A started full queue of depth 1 with the drop-oldest policy. -/
def qFullDropOldest : PushQueue Nat :=
  { concurrency := 1, availableWorkers := 1, depth := 1
    items := ⟨[some 1], 1⟩
    started := true, draining := false, overload := 0
    dropOldestOnOverload := true
    onOverloadSet := true, onFirstOverloadSet := true, onDrainedSet := true
    events := [], panicked := false }

/-- A started queue of depth 3 holding [1, 2, 3] (1 oldest), drop-oldest
policy, handlers registered: the drop-oldest scenario of the spec. -/
def qScenario : PushQueue Nat :=
  { concurrency := 1, availableWorkers := 1, depth := 3
    items := ⟨[some 1, some 2, some 3], 3⟩
    started := true, draining := false, overload := 0
    dropOldestOnOverload := true
    onOverloadSet := true, onFirstOverloadSet := true, onDrainedSet := false
    events := [], panicked := false }

/-- A started stack of height 3 holding [1, 2, 3] (1 at the bottom), handlers
registered: the drop-oldest scenario of the spec for the stack variant. -/
def sScenario : PushStack Nat :=
  { concurrency := 1, availableWorkers := 1, height := 3
    items := ⟨[some 1, some 2, some 3], 3⟩
    started := true, draining := false, overload := 0
    onOverloadSet := true, onFirstOverloadSet := true, onDrainedSet := false
    events := [], panicked := false }

/-- A started full stack of height 1, handlers registered. -/
def sFullStack : PushStack Nat :=
  { concurrency := 1, availableWorkers := 1, height := 1
    items := ⟨[some 1], 1⟩
    started := true, draining := false, overload := 0
    onOverloadSet := true, onFirstOverloadSet := true, onDrainedSet := true
    events := [], panicked := false }

/-- A draining stack with an empty buffer and a worker still in flight
(`availableWorkers < concurrency`), handlers registered. -/
def sEmptyDraining : PushStack Nat :=
  { concurrency := 1, availableWorkers := 0, height := 1
    items := ⟨[], 0⟩
    started := false, draining := true, overload := 0
    onOverloadSet := true, onFirstOverloadSet := true, onDrainedSet := true
    events := [], panicked := false }

/-- A started stack of height 2 holding one item, all slots idle. -/
def sNonEmpty : PushStack Nat :=
  { concurrency := 1, availableWorkers := 1, height := 2
    items := ⟨[some 1, none], 1⟩
    started := true, draining := false, overload := 0
    onOverloadSet := true, onFirstOverloadSet := true, onDrainedSet := true
    events := [], panicked := false }

/-- A started queue of depth 2 holding one item, all slots idle. -/
def qNonEmpty : PushQueue Nat :=
  { concurrency := 1, availableWorkers := 1, depth := 2
    items := ⟨[some 1, none], 1⟩
    started := true, draining := false, overload := 0
    dropOldestOnOverload := false
    onOverloadSet := true, onFirstOverloadSet := true, onDrainedSet := true
    events := [], panicked := false }

/-- A started batch queue (batch size 2) of depth 3 holding one item. -/
def bNonEmpty : PushBatchQueue Nat :=
  { concurrency := 1, batchSize := 2, availableWorkers := 1, depth := 3
    items := ⟨[some 1, none, none], 1⟩
    started := true, draining := false, overload := 0
    dropOldestOnOverload := false
    onOverloadSet := true, onFirstOverloadSet := true, onDrainedSet := true
    events := [], panicked := false }

/-- The queue trace of an overloaded drop-oldest insertion on an empty buffer:
construct a depth-2 queue with drop-oldest enabled and every handler
registered, start it, insert one item, let one dispatch step take it (a worker
is now in flight and the buffer is empty with one spare capacity cell), call
`Drain` (the buffer is empty but the slot is taken, so draining stays set),
then insert again: the insertion is an overload, takes the drop-oldest path,
and evaluates `q.items[:1][0]` and `q.items[1:]` on an empty buffer. -/
def qEmptyOverloadTrace : Option (PushQueue Nat) :=
  (NewPushQueue Nat 1 2).map fun q0 =>
    (((((q0.DropOldestOnOverload).OnOverload).OnFirstOverload).Start.Put
        5).get.Drain).Put 9

/-- The same trace on a depth-1 queue: after the dispatch step the empty
buffer's backing capacity is 0, so already `q.items[:1]` is out of range. -/
def qEmptyOverloadTraceCapZero : Option (PushQueue Nat) :=
  (NewPushQueue Nat 1 1).map fun q0 =>
    (((((q0.DropOldestOnOverload).OnOverload).OnFirstOverload).Start.Put
        5).get.Drain).Put 9

/-! ## Claim C1 -/

/-- Claim C1: the claim says the worker callback is invoked exactly once per
dispatched unit in every variant.  The queue variant does invoke the worker
exactly once per dispatch step, but `PushStack.pop` invokes the worker twice
with the popped item: once through `doWork(item)` and once more through the
stray `go s.worker(item)` that follows it.  On a fresh started stack of
height 1, pushing item 7 and running one pop yields two worker invocations
carrying 7. -/
theorem stack_pop_invokes_worker_twice :
    ((NewPushStack Nat 1 1).map fun q0 =>
        countWorker (((q0.Start).Push 7).pop).events (some 7)) = some 2
  ∧ ((NewPushQueue Nat 1 1).map fun q0 =>
        countWorker (((q0.Start).Put 5).get).events (some 5)) = some 1 := by
  constructor <;> decide

/-! ## Claim C3 -/

/-- Claim C3, counterexample: the overload branch that drops the incoming item
triggers no dispatch attempt.  On a started full queue with the default
policy, `Put` returns without any `go q.get()`: the claim that every insertion
branch triggers an asynchronous dispatch attempt is false at this input. -/
theorem drop_incoming_put_triggers_no_dispatch :
    countDispatch ((qFullDropIncoming.Put 9).events) = 0 := by decide

/-- Claim C3, amended: an accepted insertion and a drop-oldest overload insertion
trigger an asynchronous dispatch attempt (`go q.get()` / `go s.pop()`), and
so does every stack `Push` overload; the overload branch that drops the
incoming item triggers none.  `Drain()` triggers a dispatch attempt only in
the batch-queue variant; the queue and stack variants' `Drain` trigger none. -/
theorem dispatch_trigger_sites_amended :
    countDispatch ((qEmptyStarted.Put 5).events) = 1
  ∧ countDispatch ((qFullDropOldest.Put 9).events) = 1
  ∧ countDispatch ((sFullStack.Push 9).events) = 1
  ∧ countDispatch ((qFullDropIncoming.Put 8).events) = 0
  ∧ countDispatch ((qNonEmpty.Drain).events) = 0
  ∧ countDispatch ((sNonEmpty.Drain).events) = 0
  ∧ countDispatch ((bNonEmpty.Drain).events) = 1 := by
  refine ⟨by decide, by decide, by decide, by decide, by decide, by decide, by decide⟩

/-! ## Claim C4 -/

/-- Claim C4, counterexample: in the stack variant the value passed to the overload
handlers is not the evicted item itself.  On a full stack of height 3 holding
[1, 2, 3], pushing 4 passes the one-element slice `s.items[:1]` (containing
item 1) to both handlers: no handler event carries a bare item, and the
overload event carries the slice. -/
theorem stack_overload_handler_receives_slice :
    ((sScenario.Push 4).events.any fun e =>
        match e with
        | .overloadCalled (.item _) _ => true
        | .firstOverloadCalled (.item _) _ => true
        | _ => false) = false
  ∧ PEvent.overloadCalled (StackArg.slice [some 1]) true ∈ (sScenario.Push 4).events
  ∧ PEvent.firstOverloadCalled (StackArg.slice [some 1]) true
      ∈ (sScenario.Push 4).events := by
  refine ⟨by decide, by decide, by decide⟩

/-- Claim C4, amended: with drop-oldest enabled and capacity 3 holding [1, 2, 3]
(1 oldest), inserting 4 yields buffer [2, 3, 4] in both the queue and the
stack variant, and the queue hands the evicted item 1 itself to `onOverload`
and `onFirstOverload`; the stack also evicts from the insertion-opposite end
but hands both handlers the one-element slice `s.items[:1]` containing item 1
rather than the item itself. -/
theorem drop_oldest_scenario_amended :
    (qScenario.Put 4).items.elems = [some 2, some 3, some 4]
  ∧ (qScenario.Put 4).events
      = [.firstOverloadCalled (some 1) true, .overloadCalled (some 1) true,
         .dispatchTriggered]
  ∧ (sScenario.Push 4).items.elems = [some 2, some 3, some 4]
  ∧ (sScenario.Push 4).events
      = [.firstOverloadCalled (StackArg.slice [some 1]) true,
         .overloadCalled (StackArg.slice [some 1]) true, .dispatchTriggered] := by
  refine ⟨by decide, by decide, by decide, by decide⟩

/-! ## Claim C10 -/

/-- Claim C10, counterexample: the claim says that on a drop-oldest overload with an
empty buffer the overload handlers receive a nil or stale value (when spare
backing capacity exists).  In fact `Put` panics before reaching the handler
calls: after the reachable trace `qEmptyOverloadTrace` (empty buffer, one
spare capacity cell, draining), the insertion panics and neither handler is
invoked, and the overload counter is untouched. -/
theorem empty_drop_oldest_panics_no_handler_call :
    (qEmptyOverloadTrace.map fun s =>
        (s.panicked, countOverload s.events, countFirstOverload s.events,
         s.overload)) = some (true, 0, 0, 0) := by decide

/-- Claim C10, amended: an overloaded insertion that takes the drop-oldest path on
an empty buffer (reachable, since insertion during draining counts as overload
regardless of fullness) reads element 0 of the empty buffer and panics: with
spare backing capacity `q.items[:1][0]` reads a nil or stale cell but the
subsequent `q.items[1:]` is out of range `[1:0]`; with no spare capacity
already `q.items[:1]` is out of range.  In all cases the insertion panics, the
buffer is left as it was, and the overload handlers are not invoked.  The same
holds for a stack `Push` overload on an empty buffer. -/
theorem empty_overload_panic_amended :
    (qEmptyOverloadTrace.map fun s =>
        (s.panicked, s.items.len, s.draining, countOverload s.events))
      = some (true, 0, true, 0)
  ∧ (qEmptyOverloadTraceCapZero.map fun s =>
        (s.panicked, s.items.cap, countOverload s.events)) = some (true, 0, 0)
  ∧ (sEmptyDraining.Push 9).panicked = true
  ∧ (sEmptyDraining.Push 9).items = sEmptyDraining.items
  ∧ countOverload ((sEmptyDraining.Push 9).events) = 0 := by
  refine ⟨by decide, by decide, by decide, by decide, by decide⟩

/-! ## Claim C2 -/

/-- Claim C2, counterexample: the stack variant does not leave the buffer unchanged
on an overloaded insertion, even though it has no `dropOldestOnOverload` flag
(so the flag is never true for it): on a full height-1 stack holding item 1,
pushing 2 replaces the buffer contents. -/
theorem stack_overload_mutates_buffer :
    (sFullStack.Push 2).items.elems ≠ sFullStack.items.elems
  ∧ (sFullStack.Push 2).items.elems = [some 2] := by
  refine ⟨by decide, by decide⟩

/-- Claim C2, amended: for the queue and batch-queue variants with
`dropOldestOnOverload` false, an overloaded insertion (full buffer or
draining) leaves the buffer unchanged and hands the incoming item itself to
the overload handlers.  The stack variant has no such flag: every overloaded
`Push` evicts the bottom element, appends the incoming item, and hands the
handlers the one-element slice `s.items[:1]` containing the bottom element. -/
theorem drop_incoming_policy_amended (α : Type) (x : α)
    (sq : PushQueue α) (sb : PushBatchQueue α) (ss : PushStack α)
    (hq1 : sq.dropOldestOnOverload = false)
    (hq2 : sq.Depth ≤ sq.Count ∨ sq.draining = true)
    (hq3 : sq.onOverloadSet = true) (hq4 : sq.onFirstOverloadSet = true)
    (hq5 : sq.overload = 0)
    (hb1 : sb.dropOldestOnOverload = false)
    (hb2 : sb.Depth ≤ sb.Count ∨ sb.draining = true)
    (hb3 : sb.onOverloadSet = true) (hb4 : sb.onFirstOverloadSet = true)
    (hb5 : sb.overload = 0)
    (hs2 : ss.Height ≤ ss.Count ∨ ss.draining = true)
    (hs3 : ss.onOverloadSet = true) (hs4 : ss.onFirstOverloadSet = true)
    (hs5 : ss.overload = 0) (hs6 : 1 ≤ ss.items.len) :
    sq.Put x = { sq with
                 overload := 1,
                 events := PEvent.firstOverloadCalled (some x) true ::
                   PEvent.overloadCalled (some x) true :: sq.events }
  ∧ sb.Put x = { sb with
                 overload := 1,
                 events := PEvent.firstOverloadCalled (some x) true ::
                   PEvent.overloadCalled (some x) true :: sb.events }
  ∧ (ss.Push x).items.elems = ss.items.elems.tail ++ [some x]
  ∧ (ss.Push x).events
      = .firstOverloadCalled (.slice (ss.items.elems.take 1)) true
        :: .overloadCalled (.slice (ss.items.elems.take 1)) true
        :: .dispatchTriggered :: ss.events := by
  have hpush : ss.Push x
      = PushStack.sFinishOverload (StackArg.slice (ss.items.truncate 1).elems)
          { ss with items := (ss.items.dropFirst).gappend x
                    events := .dispatchTriggered :: ss.events } := by
    unfold PushStack.Push
    rw [if_pos hs2, if_pos hs6]
  refine ⟨?_, ?_, ?_, ?_⟩
  · unfold PushQueue.Put PushQueue.finishOverload
    rw [if_pos hq2, if_neg (by simp [hq1])]
    simp [hq3, hq4, hq5]
  · unfold PushBatchQueue.Put PushBatchQueue.bFinishOverload
    rw [if_pos hb2, if_neg (by simp [hb1])]
    simp [hb3, hb4, hb5]
  · rw [hpush]
    unfold PushStack.sFinishOverload
    simp only [hs3, hs4, hs5]
    simp [GoSlice.gappend_elems, GoSlice.dropFirst_elems _ hs6]
  · rw [hpush]
    unfold PushStack.sFinishOverload
    simp [hs3, hs4, hs5, GoSlice.truncate_elems _ _ hs6]

/-- Witness for `drop_incoming_policy_amended` at the concrete states
`qFullDropIncoming`, a full batch queue and `sFullStack`. -/
theorem drop_incoming_policy_amended_witness :
    ((qFullDropIncoming.dropOldestOnOverload = false)
      ∧ (qFullDropIncoming.Depth ≤ qFullDropIncoming.Count
          ∨ qFullDropIncoming.draining = true)
      ∧ (1 ≤ sFullStack.items.len))
  ∧ (qFullDropIncoming.Put 7).items.elems = qFullDropIncoming.items.elems
  ∧ (sFullStack.Push 7).items.elems
      = sFullStack.items.elems.tail ++ [some 7] := by
  have h := drop_incoming_policy_amended Nat 7 qFullDropIncoming
    { bNonEmpty with items := ⟨[some 1, some 2, some 3], 3⟩ } sFullStack
    (by decide) (by decide) (by decide) (by decide) (by decide)
    (by decide) (by decide) (by decide) (by decide) (by decide)
    (by decide) (by decide) (by decide) (by decide) (by decide)
  refine ⟨⟨by decide, by decide, by decide⟩, ?_, h.2.2.1⟩
  rw [h.1]

/-! ## Claim C9 -/

theorem countLockedDrained_cons (e : PEvent h w) (evs : List (PEvent h w)) :
    countLockedDrained (e :: evs)
      = countLockedDrained evs + if e.isLockedDrainedEv then 1 else 0 := by
  simp [countLockedDrained, List.countP_cons]

theorem lockedDrained_setDrained (s : PushQueue α) :
    countLockedDrained (s.setDrained).events = countLockedDrained s.events := by
  unfold PushQueue.setDrained
  split <;> simp [countLockedDrained_cons, PEvent.isLockedDrainedEv]

theorem lockedDrained_finishOverload (v : Option α) (s : PushQueue α) :
    countLockedDrained (PushQueue.finishOverload v s).events
      = countLockedDrained s.events := by
  unfold PushQueue.finishOverload
  dsimp only
  split <;> split
    <;> simp [countLockedDrained_cons, PEvent.isLockedDrainedEv]

theorem lockedDrained_Put (s : PushQueue α) (x : α) :
    countLockedDrained ((s.Put x).events) = countLockedDrained s.events := by
  unfold PushQueue.Put
  split
  · split
    · split
      · rw [lockedDrained_finishOverload]
        simp [countLockedDrained_cons, PEvent.isLockedDrainedEv]
      · rfl
    · rw [lockedDrained_finishOverload]
  · simp [countLockedDrained_cons, PEvent.isLockedDrainedEv]

theorem lockedDrained_get (s : PushQueue α) :
    countLockedDrained (s.get.events) = countLockedDrained s.events := by
  unfold PushQueue.get
  split
  · rfl
  · simp [countLockedDrained_cons, PEvent.isLockedDrainedEv]

theorem lockedDrained_workerCompleted (s : PushQueue α) :
    countLockedDrained (s.workerCompleted.events) = countLockedDrained s.events := by
  unfold PushQueue.workerCompleted
  dsimp only
  split <;> split <;> split
    <;> simp [lockedDrained_setDrained, countLockedDrained_cons,
          PEvent.isLockedDrainedEv]

theorem lockedDrained_Drain (s : PushQueue α) :
    countLockedDrained (s.Drain.events) = countLockedDrained s.events := by
  unfold PushQueue.Drain
  dsimp only
  split
  · rw [lockedDrained_setDrained]
  · rfl

/-- Claim C9, counterexample: the overload handlers are invoked from inside `Put`'s
critical section, while the machine's lock is held (`Put` takes the mutex and
only the deferred unlock releases it, after the handler calls), so the claim
that every event-handler callback runs outside the lock is false: a handler
that re-entered the dispatcher here would deadlock. -/
theorem overload_handlers_called_under_lock :
    PEvent.overloadCalled (some 8) true ∈ (qFullDropIncoming.Put 8).events
  ∧ PEvent.firstOverloadCalled (some 8) true ∈ (qFullDropIncoming.Put 8).events := by
  refine ⟨by decide, by decide⟩

/-- Claim C9, amended: `onDrained` is always launched on its own goroutine and
never runs while the lock is held (no queue step ever records a lock-holding
`onDrained` invocation), but `onOverload` and `onFirstOverload` are invoked
synchronously from inside the insertion's critical section with the lock
held, so those two handlers may not safely re-enter the dispatcher. -/
theorem handler_lock_discipline_amended (op : QOp α) (s : PushQueue α) :
    countLockedDrained ((qstep op s).events) = countLockedDrained s.events
  ∧ ((qFullDropIncoming.Put 9).events.any PEvent.isLockedHandlerEv) = true := by
  constructor
  · unfold qstep
    split
    · rfl
    · match op with
      | .put x => exact lockedDrained_Put s x
      | .get => exact lockedDrained_get s
      | .workerCompleted => exact lockedDrained_workerCompleted s
      | .start => rfl
      | .stop => rfl
      | .drain => exact lockedDrained_Drain s
      | .empty => rfl
  · decide

/-! ## Claim C6 -/

theorem finishOverload_availableWorkers (v : Option α) (s : PushQueue α) :
    (PushQueue.finishOverload v s).availableWorkers = s.availableWorkers := by
  unfold PushQueue.finishOverload; dsimp only; split <;> split <;> rfl

theorem finishOverload_concurrency (v : Option α) (s : PushQueue α) :
    (PushQueue.finishOverload v s).concurrency = s.concurrency := by
  unfold PushQueue.finishOverload; dsimp only; split <;> split <;> rfl

theorem finishOverload_items (v : Option α) (s : PushQueue α) :
    (PushQueue.finishOverload v s).items = s.items := by
  unfold PushQueue.finishOverload; dsimp only; split <;> split <;> rfl

theorem finishOverload_depth (v : Option α) (s : PushQueue α) :
    (PushQueue.finishOverload v s).depth = s.depth := by
  unfold PushQueue.finishOverload; dsimp only; split <;> split <;> rfl

theorem finishOverload_overload (v : Option α) (s : PushQueue α) :
    (PushQueue.finishOverload v s).overload = s.overload + 1 := by
  unfold PushQueue.finishOverload; dsimp only; split <;> split <;> rfl

theorem finishOverload_started (v : Option α) (s : PushQueue α) :
    (PushQueue.finishOverload v s).started = s.started := by
  unfold PushQueue.finishOverload; dsimp only; split <;> split <;> rfl

theorem finishOverload_draining (v : Option α) (s : PushQueue α) :
    (PushQueue.finishOverload v s).draining = s.draining := by
  unfold PushQueue.finishOverload; dsimp only; split <;> split <;> rfl

theorem finishOverload_panicked (v : Option α) (s : PushQueue α) :
    (PushQueue.finishOverload v s).panicked = s.panicked := by
  unfold PushQueue.finishOverload; dsimp only; split <;> split <;> rfl

theorem finishOverload_dropOldestOnOverload (v : Option α) (s : PushQueue α) :
    (PushQueue.finishOverload v s).dropOldestOnOverload
      = s.dropOldestOnOverload := by
  unfold PushQueue.finishOverload; dsimp only; split <;> split <;> rfl

theorem finishOverload_onOverloadSet (v : Option α) (s : PushQueue α) :
    (PushQueue.finishOverload v s).onOverloadSet = s.onOverloadSet := by
  unfold PushQueue.finishOverload; dsimp only; split <;> split <;> rfl

theorem finishOverload_onFirstOverloadSet (v : Option α) (s : PushQueue α) :
    (PushQueue.finishOverload v s).onFirstOverloadSet = s.onFirstOverloadSet := by
  unfold PushQueue.finishOverload; dsimp only; split <;> split <;> rfl

theorem setDrained_availableWorkers (s : PushQueue α) :
    (s.setDrained).availableWorkers = s.availableWorkers := rfl

theorem setDrained_concurrency (s : PushQueue α) :
    (s.setDrained).concurrency = s.concurrency := rfl

theorem setDrained_items (s : PushQueue α) : (s.setDrained).items = s.items := rfl

theorem setDrained_depth (s : PushQueue α) : (s.setDrained).depth = s.depth := rfl

theorem setDrained_draining (s : PushQueue α) :
    (s.setDrained).draining = false := rfl

theorem setDrained_panicked (s : PushQueue α) :
    (s.setDrained).panicked = s.panicked := rfl

/-- The two spec invariants of the dispatcher state: the idle-worker counter
stays between 0 and the concurrency, and the buffer length stays between 0 and
the capacity. -/
def QInv (s : PushQueue α) : Prop :=
  0 ≤ s.availableWorkers ∧ s.availableWorkers ≤ s.concurrency
    ∧ 0 ≤ s.Count ∧ s.Count ≤ s.depth

instance (s : PushQueue α) : Decidable (QInv s) :=
  inferInstanceAs (Decidable (_ ∧ _ ∧ _ ∧ _))

/-- Claim C6: every queue operation — insertion, dispatch step, worker completion,
`Start`, `Stop`, `Drain`, `Empty` — preserves the bounds
`0 ≤ availableWorkers ≤ concurrency` and `0 ≤ len(buffer) ≤ capacity`, so
every state reachable from a state satisfying them satisfies them. -/
theorem queue_invariant_preserved (op : QOp α) (s : PushQueue α) (h : QInv s) :
    QInv (qstep op s) := by
  obtain ⟨h1, h2, h3, h4⟩ := h
  unfold qstep
  split
  · exact ⟨h1, h2, h3, h4⟩
  cases op with
  | put x =>
    simp only [PushQueue.Put]
    split
    · split
      · split
        · next hlen =>
          refine ⟨?_, ?_, ?_, ?_⟩ <;>
            simp only [QInv, finishOverload_availableWorkers,
              finishOverload_concurrency, finishOverload_items,
              finishOverload_depth, PushQueue.Count, GoSlice.gappend_len,
              GoSlice.dropFirst_len] <;>
            simp only [PushQueue.Count] at h3 h4 <;> omega
        · exact ⟨h1, h2, h3, h4⟩
      · refine ⟨?_, ?_, ?_, ?_⟩ <;>
          simp only [QInv, finishOverload_availableWorkers,
            finishOverload_concurrency, finishOverload_items,
            finishOverload_depth, PushQueue.Count] <;>
          simp only [PushQueue.Count] at h3 h4 <;> omega
    · next hguard =>
      have hlt : s.Count < s.depth := by
        push_neg at hguard
        simpa [PushQueue.Depth] using hguard.1
      refine ⟨h1, h2, ?_, ?_⟩ <;>
        simp only [PushQueue.Count, GoSlice.gappend_len] <;>
        simp only [PushQueue.Count] at h3 h4 hlt <;> omega
  | get =>
    simp only [PushQueue.get]
    split
    · exact ⟨h1, h2, h3, h4⟩
    · next hr =>
      rw [not_not] at hr
      simp only [PushQueue.readyToWork, Bool.and_eq_true, decide_eq_true_eq] at hr
      refine ⟨?_, ?_, ?_, ?_⟩ <;>
        simp only [PushQueue.Count, GoSlice.dropFirst_len] <;>
        simp only [PushQueue.Count] at h3 h4 <;> omega
  | workerCompleted =>
    simp only [PushQueue.workerCompleted]
    split <;> split <;> split <;>
      simp only [QInv, setDrained_availableWorkers, setDrained_concurrency,
        setDrained_items, setDrained_depth, PushQueue.Count] <;>
      simp only [PushQueue.Count] at h3 h4 <;>
      exact ⟨by omega, by omega, by omega, by omega⟩
  | start => exact ⟨h1, h2, h3, h4⟩
  | stop => exact ⟨h1, h2, h3, h4⟩
  | drain =>
    simp only [PushQueue.Drain]
    split <;>
      simp only [QInv, setDrained_availableWorkers, setDrained_concurrency,
        setDrained_items, setDrained_depth, PushQueue.Count] <;>
      simp only [PushQueue.Count] at h3 h4 <;>
      exact ⟨by omega, by omega, by omega, by omega⟩
  | empty =>
    refine ⟨h1, h2, ?_, ?_⟩ <;>
      simp only [PushQueue.Empty, PushQueue.Count, GoSlice.make_len] <;>
      simp only [PushQueue.Count] at h3 h4 <;> omega

/-- Witness for `queue_invariant_preserved` at a concrete state and step. -/
theorem queue_invariant_preserved_witness :
    QInv qNonEmpty ∧ QInv (qstep (QOp.put 5) qNonEmpty) :=
  ⟨by decide, queue_invariant_preserved (QOp.put 5) qNonEmpty (by decide)⟩

/-! ## Claim C7 -/

theorem countDrained_cons (e : PEvent h w) (evs : List (PEvent h w)) :
    countDrained (e :: evs) = countDrained evs + if e.isDrainedEv then 1 else 0 := by
  simp [countDrained, List.countP_cons]

theorem countDrained_setDrained (s : PushQueue α) :
    countDrained ((s.setDrained).events)
      = countDrained s.events + (if s.onDrainedSet then 1 else 0) := by
  unfold PushQueue.setDrained
  split <;> simp [countDrained_cons, PEvent.isDrainedEv]

theorem countDrained_finishOverload (v : Option α) (s : PushQueue α) :
    countDrained ((PushQueue.finishOverload v s).events)
      = countDrained s.events := by
  unfold PushQueue.finishOverload
  dsimp only
  split <;> split <;> simp [countDrained_cons, PEvent.isDrainedEv]

theorem countDrained_Put (s : PushQueue α) (x : α) :
    countDrained ((s.Put x).events) = countDrained s.events := by
  unfold PushQueue.Put
  split
  · split
    · split
      · rw [countDrained_finishOverload]
        simp [countDrained_cons, PEvent.isDrainedEv]
      · rfl
    · rw [countDrained_finishOverload]
  · simp [countDrained_cons, PEvent.isDrainedEv]

theorem Put_draining (s : PushQueue α) (x : α) :
    (s.Put x).draining = s.draining := by
  unfold PushQueue.Put
  split
  · split
    · split
      · rw [finishOverload_draining]
      · rfl
    · rw [finishOverload_draining]
  · rfl

theorem countDrained_get (s : PushQueue α) :
    countDrained (s.get.events) = countDrained s.events := by
  unfold PushQueue.get
  split
  · rfl
  · simp [countDrained_cons, PEvent.isDrainedEv]

theorem get_draining (s : PushQueue α) : s.get.draining = s.draining := by
  unfold PushQueue.get
  split <;> rfl

theorem workerCompleted_drain_facts (s : PushQueue α) :
    countDrained ((s.workerCompleted).events) ≤ countDrained s.events + 1
  ∧ (countDrained ((s.workerCompleted).events) ≠ countDrained s.events →
      (s.workerCompleted).draining = false)
  ∧ (s.draining = false →
      countDrained ((s.workerCompleted).events) = countDrained s.events
        ∧ (s.workerCompleted).draining = false) := by
  unfold PushQueue.workerCompleted
  dsimp only
  split_ifs with h1 h2 h3 h4 h5 h6 <;>
    simp_all [countDrained_setDrained, setDrained_draining, countDrained_cons,
      PEvent.isDrainedEv] <;>
    split_ifs <;> simp_all

theorem qstep_drainFree_not_draining (op : QOp α) (s : PushQueue α)
    (hop : op ≠ QOp.drain) (hd : s.draining = false) :
    (qstep op s).draining = false
  ∧ countDrained ((qstep op s).events) = countDrained s.events := by
  unfold qstep
  split
  · exact ⟨hd, rfl⟩
  cases op with
  | put x => exact ⟨(Put_draining s x).trans hd, countDrained_Put s x⟩
  | get => exact ⟨(get_draining s).trans hd, countDrained_get s⟩
  | workerCompleted => exact ⟨((workerCompleted_drain_facts s).2.2 hd).2,
      ((workerCompleted_drain_facts s).2.2 hd).1⟩
  | start => exact ⟨rfl, rfl⟩
  | stop => exact ⟨rfl, rfl⟩
  | drain => exact absurd rfl hop
  | empty => exact ⟨hd, rfl⟩

theorem qstep_drainFree_fire_bound (op : QOp α) (s : PushQueue α)
    (hop : op ≠ QOp.drain) :
    countDrained ((qstep op s).events) ≤ countDrained s.events + 1
  ∧ (countDrained ((qstep op s).events) ≠ countDrained s.events →
      (qstep op s).draining = false) := by
  unfold qstep
  split
  · exact ⟨Nat.le_succ _, fun hne => absurd rfl hne⟩
  cases op with
  | put x => exact ⟨(countDrained_Put s x).le.trans (Nat.le_succ _),
      fun hne => absurd (countDrained_Put s x) hne⟩
  | get => exact ⟨(countDrained_get s).le.trans (Nat.le_succ _),
      fun hne => absurd (countDrained_get s) hne⟩
  | workerCompleted => exact ⟨(workerCompleted_drain_facts s).1,
      (workerCompleted_drain_facts s).2.1⟩
  | start => exact ⟨Nat.le_succ _, fun hne => absurd rfl hne⟩
  | stop => exact ⟨Nat.le_succ _, fun hne => absurd rfl hne⟩
  | drain => exact absurd rfl hop
  | empty => exact ⟨Nat.le_succ _, fun hne => absurd rfl hne⟩

theorem qexec_drainFree_not_draining (ops : List (QOp α)) (s : PushQueue α)
    (hops : QOp.drain ∉ ops) (hd : s.draining = false) :
    (qexec ops s).draining = false
  ∧ countDrained ((qexec ops s).events) = countDrained s.events := by
  induction ops generalizing s with
  | nil => exact ⟨hd, rfl⟩
  | cons op rest ih =>
    have hop : op ≠ QOp.drain := fun he => hops (he ▸ List.mem_cons_self op rest)
    have hrest : QOp.drain ∉ rest := fun hm => hops (List.mem_cons_of_mem op hm)
    have hstep := qstep_drainFree_not_draining op s hop hd
    have hex : qexec (op :: rest) s = qexec rest (qstep op s) := rfl
    rw [hex]
    obtain ⟨ha, hb⟩ := ih (qstep op s) hrest hstep.1
    exact ⟨ha, hb.trans hstep.2⟩

theorem qexec_drainFree_at_most_one (ops : List (QOp α)) (s : PushQueue α)
    (hops : QOp.drain ∉ ops) :
    countDrained ((qexec ops s).events) ≤ countDrained s.events + 1 := by
  induction ops generalizing s with
  | nil => exact Nat.le_succ _
  | cons op rest ih =>
    have hop : op ≠ QOp.drain := fun he => hops (he ▸ List.mem_cons_self op rest)
    have hrest : QOp.drain ∉ rest := fun hm => hops (List.mem_cons_of_mem op hm)
    have hex : qexec (op :: rest) s = qexec rest (qstep op s) := rfl
    rw [hex]
    obtain ⟨hb1, hb2⟩ := qstep_drainFree_fire_bound op s hop
    by_cases hc : countDrained ((qstep op s).events) = countDrained s.events
    · have := ih (qstep op s) hrest
      omega
    · have hdr := hb2 hc
      have := (qexec_drainFree_not_draining rest (qstep op s) hrest hdr).2
      omega

/-- Claim C7: calling `Drain()` on a queue with an empty buffer and every worker
slot idle fires `onDrained` exactly once — the only event added is the single
`drainedFired` event, the buffer and the slot counter are untouched, so
nothing is dispatched — and clears the draining flag as part of firing; and
along any sequence of steps containing no further `Drain` call, `onDrained`
fires at most once (not at all if the machine is not draining), because
firing clears the draining flag and only a draining machine can fire. -/
theorem empty_drain_fires_exactly_once (α : Type) (s : PushQueue α)
    (ops : List (QOp α)) (hb : s.items.len = 0)
    (haw : s.availableWorkers = s.concurrency) (hset : s.onDrainedSet = true)
    (hops : QOp.drain ∉ ops) :
    s.Drain = { s with
                started := false,
                draining := false,
                events := PEvent.drainedFired false :: s.events }
  ∧ (s.draining = false →
      countDrained ((qexec ops s).events) = countDrained s.events)
  ∧ countDrained ((qexec ops s).events) ≤ countDrained s.events + 1 := by
  refine ⟨?_, fun hd => (qexec_drainFree_not_draining ops s hops hd).2,
    qexec_drainFree_at_most_one ops s hops⟩
  unfold PushQueue.Drain
  rw [if_pos (by constructor <;> simp [PushQueue.Count, hb, haw])]
  unfold PushQueue.setDrained
  simp [hset]

/-- Witness for `empty_drain_fires_exactly_once` at a concrete state. -/
theorem empty_drain_fires_exactly_once_witness :
    (qEmptyStarted.items.len = 0
      ∧ qEmptyStarted.availableWorkers = qEmptyStarted.concurrency
      ∧ qEmptyStarted.onDrainedSet = true
      ∧ QOp.drain ∉ [QOp.put 5, QOp.get])
  ∧ qEmptyStarted.Drain = { qEmptyStarted with
                            started := false,
                            draining := false,
                            events := [PEvent.drainedFired false] }
  ∧ countDrained ((qexec [QOp.put 5, QOp.get] qEmptyStarted).events) = 0 := by
  have h := empty_drain_fires_exactly_once Nat qEmptyStarted
    [QOp.put 5, QOp.get] (by decide) (by decide) (by decide) (by decide)
  refine ⟨⟨by decide, by decide, by decide, by decide⟩, h.1, ?_⟩
  have h2 := h.2.1 (by decide)
  simpa using h2

/-! ## Claim C5 -/

theorem countOverload_cons (e : PEvent h w) (evs : List (PEvent h w)) :
    countOverload (e :: evs) = countOverload evs + if e.isOverloadEv then 1 else 0 := by
  simp [countOverload, List.countP_cons]

theorem countFirstOverload_cons (e : PEvent h w) (evs : List (PEvent h w)) :
    countFirstOverload (e :: evs)
      = countFirstOverload evs + if e.isFirstOverloadEv then 1 else 0 := by
  simp [countFirstOverload, List.countP_cons]

theorem qexec_append (a b : List (QOp α)) (s : PushQueue α) :
    qexec (a ++ b) s = qexec b (qexec a s) := by
  simp [qexec, List.foldl_append]

theorem finishOverload_counts (v : Option α) (s : PushQueue α)
    (hov : s.onOverloadSet = true) (hfov : s.onFirstOverloadSet = true) :
    countOverload ((PushQueue.finishOverload v s).events)
      = countOverload s.events + 1
  ∧ countFirstOverload ((PushQueue.finishOverload v s).events)
      = countFirstOverload s.events + (if s.overload + 1 = 1 then 1 else 0) := by
  unfold PushQueue.finishOverload
  dsimp only
  simp only [hov, hfov, and_true, if_true]
  split_ifs with h0 <;>
    simp [countOverload_cons, countFirstOverload_cons, PEvent.isOverloadEv,
      PEvent.isFirstOverloadEv, h0]

/-- Folding accepted insertions: while the buffer has room and the machine is
not draining, every `Put` appends and neither the overload counter nor the
handler logs change. -/
theorem qexec_puts_fill (ys : List α) (s : PushQueue α)
    (hp : s.panicked = false) (hdr : s.draining = false)
    (hcap : s.Count + (ys.length : Int) ≤ s.depth) :
    (qexec (ys.map QOp.put) s).items.len = s.items.len + ys.length
  ∧ (qexec (ys.map QOp.put) s).overload = s.overload
  ∧ countOverload ((qexec (ys.map QOp.put) s).events) = countOverload s.events
  ∧ countFirstOverload ((qexec (ys.map QOp.put) s).events)
      = countFirstOverload s.events
  ∧ (qexec (ys.map QOp.put) s).panicked = false
  ∧ (qexec (ys.map QOp.put) s).draining = false
  ∧ (qexec (ys.map QOp.put) s).depth = s.depth
  ∧ (qexec (ys.map QOp.put) s).dropOldestOnOverload = s.dropOldestOnOverload
  ∧ (qexec (ys.map QOp.put) s).onOverloadSet = s.onOverloadSet
  ∧ (qexec (ys.map QOp.put) s).onFirstOverloadSet = s.onFirstOverloadSet := by
  induction ys generalizing s with
  | nil => exact ⟨rfl, rfl, rfl, rfl, hp, hdr, rfl, rfl, rfl, rfl⟩
  | cons y ys ih =>
    have hg : ¬ (s.Depth ≤ s.Count ∨ s.draining = true) := by
      rintro (hle | hdt)
      · simp only [PushQueue.Depth] at hle
        simp only [List.length_cons] at hcap
        omega
      · rw [hdr] at hdt
        exact Bool.false_ne_true hdt
    have hstep : qstep (QOp.put y) s = { s with
        items := s.items.gappend y,
        events := PEvent.dispatchTriggered :: s.events } := by
      show (if s.panicked = true then s else s.Put y) = _
      rw [if_neg (by simp [hp])]
      unfold PushQueue.Put
      rw [if_neg hg]
    have hexec : qexec ((y :: ys).map QOp.put) s
        = qexec (ys.map QOp.put) (qstep (QOp.put y) s) := rfl
    rw [hexec, hstep]
    have hcap2 : ({ s with
        items := s.items.gappend y,
        events := PEvent.dispatchTriggered :: s.events } : PushQueue α).Count
          + (ys.length : Int)
        ≤ ({ s with
             items := s.items.gappend y,
             events := PEvent.dispatchTriggered :: s.events } : PushQueue α).depth := by
      simp only [PushQueue.Count, GoSlice.gappend_len]
      simp only [PushQueue.Count, List.length_cons] at hcap
      push_cast at hcap ⊢
      omega
    obtain ⟨i1, i2, i3, i4, i5, i6, i7, i8, i9, i10⟩ :=
      ih { s with
           items := s.items.gappend y,
           events := PEvent.dispatchTriggered :: s.events } hp hdr hcap2
    refine ⟨?_, i2, ?_, ?_, i5, i6, i7, i8, i9, i10⟩
    · rw [i1]
      simp [GoSlice.gappend_len]
      omega
    · rw [i3]
      simp [countOverload_cons, PEvent.isOverloadEv]
    · rw [i4]
      simp [countFirstOverload_cons, PEvent.isFirstOverloadEv]

/-- Folding overloaded insertions on a full buffer with the drop-incoming
policy: each `Put` increments the overload counter and fires `onOverload`, and
`onFirstOverload` fires exactly on the insertion that makes the counter 1. -/
theorem qexec_puts_overloaded (ys : List α) (s : PushQueue α)
    (hp : s.panicked = false) (hfull : s.depth ≤ s.Count)
    (hflag : s.dropOldestOnOverload = false)
    (hov : s.onOverloadSet = true) (hfov : s.onFirstOverloadSet = true)
    (hnn : 0 ≤ s.overload) :
    (qexec (ys.map QOp.put) s).overload = s.overload + (ys.length : Int)
  ∧ countOverload ((qexec (ys.map QOp.put) s).events)
      = countOverload s.events + ys.length
  ∧ countFirstOverload ((qexec (ys.map QOp.put) s).events)
      = countFirstOverload s.events
        + (if s.overload = 0 ∧ 0 < ys.length then 1 else 0) := by
  induction ys generalizing s with
  | nil => refine ⟨?_, ?_, ?_⟩ <;> simp [qexec]
  | cons y ys ih =>
    have hstep : qstep (QOp.put y) s = PushQueue.finishOverload (some y) s := by
      show (if s.panicked = true then s else s.Put y) = _
      rw [if_neg (by simp [hp])]
      unfold PushQueue.Put
      rw [if_pos (Or.inl (show s.Depth ≤ s.Count from hfull)),
        if_neg (by simp [hflag])]
    have hexec : qexec ((y :: ys).map QOp.put) s
        = qexec (ys.map QOp.put) (qstep (QOp.put y) s) := rfl
    rw [hexec, hstep]
    have hcounts := finishOverload_counts (some y) s hov hfov
    have hfc : (PushQueue.finishOverload (some y) s).Count = s.Count := by
      unfold PushQueue.Count
      rw [finishOverload_items]
    obtain ⟨i1, i2, i3⟩ := ih (PushQueue.finishOverload (some y) s)
      (by rw [finishOverload_panicked]; exact hp)
      (by rw [finishOverload_depth, hfc]; exact hfull)
      (by rw [finishOverload_dropOldestOnOverload]; exact hflag)
      (by rw [finishOverload_onOverloadSet]; exact hov)
      (by rw [finishOverload_onFirstOverloadSet]; exact hfov)
      (by rw [finishOverload_overload]; omega)
    refine ⟨?_, ?_, ?_⟩
    · rw [i1, finishOverload_overload]
      simp only [List.length_cons]
      push_cast
      omega
    · rw [i2, hcounts.1]
      simp only [List.length_cons]
      omega
    · rw [i3, hcounts.2, finishOverload_overload]
      have h2 : ¬ (s.overload + 1 = 0) := by omega
      by_cases h0 : s.overload = 0
      · have h1 : s.overload + 1 = 1 := by omega
        simp [h0, h1, h2, List.length_cons]
      · have h1 : ¬ (s.overload + 1 = 1) := by omega
        simp [h0, h1, h2]

/-- Claim C5: inserting `depth + k` items (`k ≥ 1`) into a freshly started queue
whose dispatch goroutines have not removed anything (no worker frees space
between the insertions) yields `overloadCount = k`, fires `onOverload` exactly
`k` times, and fires `onFirstOverload` exactly once — already on the
`depth + 1`-st insertion, the one that makes the overload counter 1. -/
theorem overload_accounting (α : Type) (conc d : Int) (q0 : PushQueue α)
    (hnew : NewPushQueue α conc d = some q0) (k : Nat) (hk : 1 ≤ k)
    (xs : List α) (hlen : xs.length = d.toNat + k) :
    (qexec (xs.map QOp.put) (((q0.OnOverload).OnFirstOverload).Start)).overload
      = (k : Int)
  ∧ countOverload
      ((qexec (xs.map QOp.put) (((q0.OnOverload).OnFirstOverload).Start)).events)
      = k
  ∧ countFirstOverload
      ((qexec (xs.map QOp.put) (((q0.OnOverload).OnFirstOverload).Start)).events)
      = 1
  ∧ countFirstOverload
      ((qexec ((xs.take (d.toNat + 1)).map QOp.put)
          (((q0.OnOverload).OnFirstOverload).Start)).events)
      = 1 := by
  unfold NewPushQueue at hnew
  split at hnew
  case isFalse => exact absurd hnew (by simp)
  case isTrue hcd =>
  obtain ⟨hc, hd⟩ := hcd
  have hq0 := Option.some_injective _ hnew
  subst hq0
  set s0 := ((({
      concurrency := conc
      availableWorkers := conc
      depth := d
      items := GoSlice.make α d.toNat
      started := false
      draining := false
      overload := 0
      dropOldestOnOverload := false
      onOverloadSet := false
      onFirstOverloadSet := false
      onDrainedSet := false
      events := []
      panicked := false } : PushQueue α).OnOverload).OnFirstOverload).Start
    with hs0
  have hdtoNat : ((d.toNat : Int)) = d := Int.toNat_of_nonneg (by omega)
  have htakelen : (xs.take d.toNat).length = d.toNat := by
    rw [List.length_take]
    omega
  have hfill := qexec_puts_fill (xs.take d.toNat) s0 rfl rfl
    (by rw [htakelen]
        show (0 : Int) + (d.toNat : Int) ≤ d
        omega)
  obtain ⟨f1, f2, f3, f4, f5, f6, f7, f8, f9, f10⟩ := hfill
  set t1 := qexec ((xs.take d.toNat).map QOp.put) s0 with ht1
  have ht1full : t1.depth ≤ t1.Count := by
    rw [f7]
    show s0.depth ≤ (t1.items.len : Int)
    rw [f1, htakelen]
    show d ≤ ((0 + d.toNat : Nat) : Int)
    omega
  have hdroplen : (xs.drop d.toNat).length = k := by
    rw [List.length_drop]
    omega
  have hover := qexec_puts_overloaded (xs.drop d.toNat) t1 f5 ht1full
    (by rw [f8]; rfl) (by rw [f9]; rfl) (by rw [f10]; rfl)
    (by rw [f2]; exact le_refl 0)
  have hxs : xs.map QOp.put
      = (xs.take d.toNat).map QOp.put ++ (xs.drop d.toNat).map (QOp.put (α := α)) := by
    rw [← List.map_append, List.take_append_drop]
  have hfull0 : countOverload s0.events = 0 := rfl
  have hffull0 : countFirstOverload s0.events = 0 := rfl
  refine ⟨?_, ?_, ?_, ?_⟩
  · rw [hxs, qexec_append, ← ht1, hover.1, f2, hdroplen]
    show (0 : Int) + (k : Int) = (k : Int)
    omega
  · rw [hxs, qexec_append, ← ht1, hover.2.1, f3, hfull0, hdroplen]
    exact Nat.zero_add k
  · rw [hxs, qexec_append, ← ht1, hover.2.2, f4, hffull0, f2]
    have hpos : 0 < (xs.drop d.toNat).length := by omega
    have hov0 : s0.overload = 0 := rfl
    simp [hpos, hov0]
    omega
  · have hlt : d.toNat < xs.length := by omega
    have hget : xs[d.toNat]? = some xs[d.toNat] := List.getElem?_eq_getElem hlt
    have htakes : xs.take (d.toNat + 1) = xs.take d.toNat ++ [xs[d.toNat]] := by
      rw [List.take_succ, hget]
      rfl
    rw [htakes, List.map_append, qexec_append, ← ht1]
    have hone := qexec_puts_overloaded [xs[d.toNat]] t1 f5 ht1full
      (by rw [f8]; rfl) (by rw [f9]; rfl) (by rw [f10]; rfl)
      (by rw [f2]; exact le_refl 0)
    rw [hone.2.2, f4, hffull0, f2]
    have hov0 : s0.overload = 0 := rfl
    simp [hov0]

/-- Witness for `overload_accounting`: depth 2, `k = 1`, three insertions. -/
theorem overload_accounting_witness :
    (NewPushQueue Nat 1 2 = some (Option.getD (NewPushQueue Nat 1 2) qEmptyStarted)
      ∧ 1 ≤ 1 ∧ ([10, 20, 30] : List Nat).length = (2 : Int).toNat + 1)
  ∧ (qexec ([10, 20, 30].map QOp.put)
      ((((Option.getD (NewPushQueue Nat 1 2) qEmptyStarted).OnOverload).OnFirstOverload).Start)).overload
      = (1 : Int) := by
  have h := overload_accounting Nat 1 2
    (Option.getD (NewPushQueue Nat 1 2) qEmptyStarted) (by decide) 1 (by decide)
    [10, 20, 30] (by decide)
  exact ⟨⟨by decide, by decide, by decide⟩, h.1⟩

/-! ## Claim C8 -/

/-- The batch carried by an event, if the event is a worker invocation. -/
def bBatchOf : PEvent (Option α) (List (Option α)) → Option (List (Option α))
  | .workerInvoked l => some l
  | _ => none

/-- Concatenation, in dispatch order, of all batches handed to workers in an
instrumentation log (the log stores newest events first). -/
def joinBatches (evs : List (PEvent (Option α) (List (Option α)))) :
    List (Option α) :=
  (evs.reverse.filterMap bBatchOf).flatten

/-- The items of the insertions of a step sequence, in order. -/
def putsOf : List (BOp α) → List (Option α)
  | [] => []
  | BOp.put x :: rest => some x :: putsOf rest
  | _ :: rest => putsOf rest

/-- Whether the batch queue accepts an insertion in its current state (the
negation of `Put`'s overload condition). -/
def bAccepts (s : PushBatchQueue α) : Bool :=
  ! (decide (s.Depth ≤ s.Count) || s.draining)

/-- Whether a step is an insertion the current state accepts (non-insertion
steps are unconstrained). -/
def bOpAccepted (op : BOp α) (s : PushBatchQueue α) : Bool :=
  match op with
  | BOp.put _ => bAccepts s
  | _ => true

/-- The item a step drops, as `Put`'s overload branch computes it: the
incoming item under the default policy, the buffer head under drop-oldest;
empty when the step is no insertion, the insertion is accepted, or the
machine already crashed.  The panicking empty-buffer drop-oldest insertion
records nothing: the run freezes there. -/
def bDropOf (op : BOp α) (s : PushBatchQueue α) : List (Option α) :=
  if s.panicked then []
  else
    match op with
    | BOp.put x =>
      if s.Depth ≤ s.Count ∨ s.draining then
        if s.dropOldestOnOverload then
          if 1 ≤ s.items.len then [s.items.head0] else []
        else [some x]
      else []
    | _ => []

/-- The items dropped along a step sequence, in drop order. -/
def bDropsOf : List (BOp α) → PushBatchQueue α → List (Option α)
  | [], _ => []
  | op :: rest, s => bDropOf op s ++ bDropsOf rest (bstep op s)

theorem joinBatches_cons (e : PEvent (Option α) (List (Option α)))
    (evs : List (PEvent (Option α) (List (Option α)))) :
    joinBatches (e :: evs) = joinBatches evs ++ (bBatchOf e).getD [] := by
  unfold joinBatches
  rw [List.reverse_cons, List.filterMap_append, List.flatten_append]
  cases hb : bBatchOf (α := α) e <;> simp [List.filterMap_cons, hb]

theorem bstep_put_accepted (s : PushBatchQueue α) (x : α)
    (hp : s.panicked = false) (hacc : bAccepts s = true) :
    bstep (BOp.put x) s = { s with
                            items := s.items.gappend x,
                            events := PEvent.dispatchTriggered :: s.events } := by
  show (if s.panicked = true then s else s.Put x) = _
  rw [if_neg (by simp [hp])]
  unfold PushBatchQueue.Put
  simp only [bAccepts, Bool.not_eq_eq_eq_not, Bool.not_true, Bool.or_eq_false_iff,
    decide_eq_false_iff_not] at hacc
  have hneg : ¬ (s.Depth ≤ s.Count ∨ s.draining = true) := by
    rintro (hle | hdt)
    · exact hacc.1 hle
    · rw [hacc.2] at hdt
      exact Bool.false_ne_true hdt
  rw [if_neg hneg]

theorem bsetDrained_join_items (s : PushBatchQueue α) :
    joinBatches ((s.setDrained).events) = joinBatches s.events
  ∧ (s.setDrained).items = s.items ∧ (s.setDrained).panicked = s.panicked := by
  refine ⟨?_, rfl, rfl⟩
  unfold PushBatchQueue.setDrained
  split <;> simp [joinBatches_cons, bBatchOf]

theorem bstep_concat_step (op : BOp α) (s : PushBatchQueue α)
    (hp : s.panicked = false) (hop : op ≠ BOp.empty)
    (hacc : bOpAccepted op s = true) :
    joinBatches ((bstep op s).events) ++ (bstep op s).items.elems
      = joinBatches s.events ++ s.items.elems ++ putsOf [op]
  ∧ (bstep op s).panicked = false := by
  cases op with
  | put x =>
    rw [bstep_put_accepted s x hp (by simpa [bOpAccepted] using hacc)]
    constructor
    · simp [joinBatches_cons, bBatchOf, GoSlice.gappend_elems, putsOf,
        List.append_assoc]
    · exact hp
  | get =>
    have hb : bstep BOp.get s = s.get := by
      show (if s.panicked = true then s else s.get) = _
      rw [if_neg (by simp [hp])]
    rw [hb]
    unfold PushBatchQueue.get
    split
    · exact ⟨by simp [putsOf], hp⟩
    · next hr =>
      rw [not_not] at hr
      simp only [PushBatchQueue.readyToWork, Bool.and_eq_true,
        decide_eq_true_eq] at hr
      have hn : (if (s.items.len : Int) < s.batchSize then (s.items.len : Int)
          else s.batchSize).toNat ≤ s.items.len := by
        split <;> omega
      constructor
      · simp only [joinBatches_cons, bBatchOf, Option.getD_some,
          GoSlice.dropN_elems, GoSlice.truncate_elems _ _ hn, putsOf]
        rw [List.append_assoc, List.take_append_drop]
        simp
      · exact hp
  | workerCompleted =>
    have hb : bstep BOp.workerCompleted s = s.workerCompleted := by
      show (if s.panicked = true then s else s.workerCompleted) = _
      rw [if_neg (by simp [hp])]
    rw [hb]
    unfold PushBatchQueue.workerCompleted
    dsimp only
    split <;> split <;> split <;>
      simp_all [joinBatches_cons, bBatchOf, putsOf, PushBatchQueue.setDrained] <;>
      split_ifs <;>
      simp_all [joinBatches_cons, bBatchOf]
  | start =>
    have hb : bstep BOp.start s = s.Start := by
      show (if s.panicked = true then s else s.Start) = _
      rw [if_neg (by simp [hp])]
    rw [hb]
    exact ⟨by simp [PushBatchQueue.Start, joinBatches_cons, bBatchOf, putsOf], hp⟩
  | stop =>
    have hb : bstep BOp.stop s = s.Stop := by
      show (if s.panicked = true then s else s.Stop) = _
      rw [if_neg (by simp [hp])]
    rw [hb]
    exact ⟨by simp [putsOf, PushBatchQueue.Stop], hp⟩
  | drain =>
    have hb : bstep BOp.drain s = s.Drain := by
      show (if s.panicked = true then s else s.Drain) = _
      rw [if_neg (by simp [hp])]
    rw [hb]
    unfold PushBatchQueue.Drain
    dsimp only
    split <;>
      simp_all [joinBatches_cons, bBatchOf, putsOf, PushBatchQueue.setDrained] <;>
      split_ifs <;>
      simp_all [joinBatches_cons, bBatchOf]
  | empty => exact absurd rfl hop

theorem putsOf_cons (op : BOp α) (rest : List (BOp α)) :
    putsOf (op :: rest) = putsOf [op] ++ putsOf rest := by
  cases op <;> rfl

theorem bFinishOverload_join_items (v : Option α) (s : PushBatchQueue α) :
    joinBatches ((PushBatchQueue.bFinishOverload v s).events) = joinBatches s.events
  ∧ (PushBatchQueue.bFinishOverload v s).items = s.items
  ∧ (PushBatchQueue.bFinishOverload v s).panicked = s.panicked := by
  unfold PushBatchQueue.bFinishOverload
  dsimp only
  refine ⟨?_, ?_, ?_⟩ <;> split <;> split <;>
    simp [joinBatches_cons, bBatchOf]

theorem bstep_sticky (op : BOp α) (s : PushBatchQueue α)
    (h : s.panicked = true) : bstep op s = s := by
  unfold bstep
  rw [if_pos h]

theorem bexec_sticky (ops : List (BOp α)) (s : PushBatchQueue α)
    (h : s.panicked = true) : bexec ops s = s := by
  induction ops with
  | nil => rfl
  | cons op rest ih =>
    show bexec rest (bstep op s) = s
    rw [bstep_sticky op s h]
    exact ih

theorem bexec_head_not_panicked (op : BOp α) (rest : List (BOp α))
    (s : PushBatchQueue α) (hfin : (bexec (op :: rest) s).panicked = false) :
    (bstep op s).panicked = false := by
  by_contra hc
  rw [Bool.not_eq_false] at hc
  have hstop : bexec (op :: rest) s = bstep op s :=
    bexec_sticky rest (bstep op s) hc
  rw [hstop, hc] at hfin
  exact absurd hfin (by decide)

/-- Every step keeps the buffer slice well formed (length at most
capacity). -/
theorem bstep_wf (op : BOp α) (s : PushBatchQueue α)
    (hwf : s.items.len ≤ s.items.cap) :
    (bstep op s).items.len ≤ (bstep op s).items.cap := by
  unfold bstep
  split
  · exact hwf
  cases op with
  | put x =>
    show (s.Put x).items.len ≤ (s.Put x).items.cap
    unfold PushBatchQueue.Put
    dsimp only
    split
    · split
      · split
        · rw [(bFinishOverload_join_items _ _).2.1]
          exact GoSlice.gappend_wf _ x (GoSlice.dropFirst_wf s.items hwf)
        · exact hwf
      · rw [(bFinishOverload_join_items _ _).2.1]
        exact hwf
    · exact GoSlice.gappend_wf s.items x hwf
  | get =>
    show (s.get).items.len ≤ (s.get).items.cap
    unfold PushBatchQueue.get
    split
    · exact hwf
    · dsimp only
      exact GoSlice.dropN_wf s.items _ hwf
  | workerCompleted =>
    show (s.workerCompleted).items.len ≤ (s.workerCompleted).items.cap
    unfold PushBatchQueue.workerCompleted
    dsimp only
    split <;> split <;> split <;> exact hwf
  | start => exact hwf
  | stop => exact hwf
  | drain =>
    show (s.Drain).items.len ≤ (s.Drain).items.cap
    unfold PushBatchQueue.Drain
    dsimp only
    split <;> exact hwf
  | empty => exact GoSlice.make_wf α _


/-- One step of the survivors accounting: the dispatched batches followed by
the buffer stay, in order, a sublist of the previous batches, buffer and the
step's insertion, and adding the step's dropped item back restores the exact
multiset.  Covers every `Put` branch: accepted, drop-incoming (the incoming
item is the drop) and drop-oldest (the buffer head is the drop). -/
theorem bstep_survivors (op : BOp α) (s : PushBatchQueue α)
    (hp : s.panicked = false) (hop : op ≠ BOp.empty)
    (hpp : (bstep op s).panicked = false)
    (hwf : s.items.len ≤ s.items.cap) :
    List.Sublist
      (joinBatches ((bstep op s).events) ++ (bstep op s).items.elems)
      (joinBatches s.events ++ s.items.elems ++ putsOf [op])
  ∧ (↑(joinBatches ((bstep op s).events) ++ (bstep op s).items.elems)
      + ↑(bDropOf op s) : Multiset (Option α))
    = ↑(joinBatches s.events ++ s.items.elems) + ↑(putsOf [op]) := by
  cases op with
  | put x =>
    have hb : bstep (BOp.put x) s = s.Put x := by
      show (if s.panicked = true then s else s.Put x) = _
      rw [if_neg (by simp [hp])]
    have hdrop : bDropOf (BOp.put x) s
        = (if s.Depth ≤ s.Count ∨ s.draining then
            if s.dropOldestOnOverload then
              if 1 ≤ s.items.len then [s.items.head0] else []
            else [some x]
          else []) := by
      unfold bDropOf
      rw [if_neg (by simp [hp])]
    rw [hb, hdrop]
    by_cases hg : s.Depth ≤ s.Count ∨ s.draining = true
    · by_cases hf : s.dropOldestOnOverload = true
      · by_cases hl : 1 ≤ s.items.len
        · have hput : s.Put x
              = PushBatchQueue.bFinishOverload s.items.head0
                  { s with
                    items := (s.items.dropFirst).gappend x,
                    events := PEvent.dispatchTriggered :: s.events } := by
            unfold PushBatchQueue.Put
            rw [if_pos hg, if_pos hf, if_pos hl]
          rw [hput, if_pos hg, if_pos hf, if_pos hl,
            (bFinishOverload_join_items _ _).1,
            (bFinishOverload_join_items _ _).2.1]
          dsimp only
          have hjd : joinBatches (PEvent.dispatchTriggered :: s.events)
              = joinBatches s.events := by
            simp [joinBatches_cons, bBatchOf]
          have he : ((s.items.dropFirst).gappend x).elems
              = s.items.elems.tail ++ [some x] := by
            rw [GoSlice.gappend_elems, GoSlice.dropFirst_elems _ hl]
          rw [hjd, he]
          set T := s.items.elems.tail with hT
          have hh : s.items.elems = s.items.head0 :: T := by
            rw [hT]
            exact GoSlice.elems_head s.items hl hwf
          rw [hh]
          constructor
          · simp only [putsOf, List.append_assoc, List.cons_append,
              List.nil_append]
            exact List.Sublist.append_left
              (List.sublist_cons_self _ _) (joinBatches s.events)
          · rw [Multiset.coe_add, Multiset.coe_add, Multiset.coe_eq_coe]
            have hperm : List.Perm
                ((T ++ [some x]) ++ [s.items.head0])
                (s.items.head0 :: (T ++ [some x])) :=
              List.perm_append_singleton _ _
            have hperm2 := hperm.append_left (joinBatches s.events)
            simp only [putsOf, List.append_assoc, List.cons_append,
              List.nil_append] at hperm2 ⊢
            exact hperm2
        · exfalso
          have hput : s.Put x = { s with panicked := true } := by
            unfold PushBatchQueue.Put
            rw [if_pos hg, if_pos hf, if_neg hl]
          rw [hb, hput] at hpp
          simp at hpp
      · have hput : s.Put x = PushBatchQueue.bFinishOverload (some x) s := by
          unfold PushBatchQueue.Put
          rw [if_pos hg, if_neg hf]
        rw [hput, if_pos hg, if_neg hf,
          (bFinishOverload_join_items _ _).1,
          (bFinishOverload_join_items _ _).2.1]
        constructor
        · simp only [putsOf]
          exact List.sublist_append_left _ _
        · simp [putsOf]
    · have hput : s.Put x = { s with
          items := s.items.gappend x,
          events := PEvent.dispatchTriggered :: s.events } := by
        unfold PushBatchQueue.Put
        rw [if_neg hg]
      rw [hput, if_neg hg]
      dsimp only
      have hjd : joinBatches (PEvent.dispatchTriggered :: s.events)
          = joinBatches s.events := by
        simp [joinBatches_cons, bBatchOf]
      rw [hjd, GoSlice.gappend_elems]
      constructor
      · simp only [putsOf, ← List.append_assoc]
        exact List.Sublist.refl _
      · rw [Multiset.coe_add, Multiset.coe_add, Multiset.coe_eq_coe]
        simp only [putsOf, List.append_assoc, List.append_nil]
        exact List.Perm.refl _
  | get =>
    have h := bstep_concat_step BOp.get s hp (fun he => nomatch he) rfl
    refine ⟨h.1 ▸ List.Sublist.refl _, ?_⟩
    rw [h.1]
    have hd : bDropOf (α := α) BOp.get s = [] := by
      unfold bDropOf
      split <;> rfl
    rw [hd]
    simp [putsOf]
  | workerCompleted =>
    have h := bstep_concat_step BOp.workerCompleted s hp (fun he => nomatch he) rfl
    refine ⟨h.1 ▸ List.Sublist.refl _, ?_⟩
    rw [h.1]
    have hd : bDropOf (α := α) BOp.workerCompleted s = [] := by
      unfold bDropOf
      split <;> rfl
    rw [hd]
    simp [putsOf]
  | start =>
    have h := bstep_concat_step BOp.start s hp (fun he => nomatch he) rfl
    refine ⟨h.1 ▸ List.Sublist.refl _, ?_⟩
    rw [h.1]
    have hd : bDropOf (α := α) BOp.start s = [] := by
      unfold bDropOf
      split <;> rfl
    rw [hd]
    simp [putsOf]
  | stop =>
    have h := bstep_concat_step BOp.stop s hp (fun he => nomatch he) rfl
    refine ⟨h.1 ▸ List.Sublist.refl _, ?_⟩
    rw [h.1]
    have hd : bDropOf (α := α) BOp.stop s = [] := by
      unfold bDropOf
      split <;> rfl
    rw [hd]
    simp [putsOf]
  | drain =>
    have h := bstep_concat_step BOp.drain s hp (fun he => nomatch he) rfl
    refine ⟨h.1 ▸ List.Sublist.refl _, ?_⟩
    rw [h.1]
    have hd : bDropOf (α := α) BOp.drain s = [] := by
      unfold bDropOf
      split <;> rfl
    rw [hd]
    simp [putsOf]
  | empty => exact absurd rfl hop

/-- Executing any `Empty`-free, panic-free step sequence: the dispatched
batches followed by the remaining buffer are a sublist (order preserved) of
the earlier batches, the earlier buffer and the inserted items, and adding
the dropped items back restores the exact multiset. -/
theorem bexec_survivors (ops : List (BOp α)) (s : PushBatchQueue α)
    (hp : s.panicked = false) (hemp : BOp.empty ∉ ops)
    (hfin : (bexec ops s).panicked = false)
    (hwf : s.items.len ≤ s.items.cap) :
    List.Sublist
      (joinBatches ((bexec ops s).events) ++ (bexec ops s).items.elems)
      (joinBatches s.events ++ s.items.elems ++ putsOf ops)
  ∧ (↑(joinBatches ((bexec ops s).events) ++ (bexec ops s).items.elems)
      + ↑(bDropsOf ops s) : Multiset (Option α))
    = ↑(joinBatches s.events ++ s.items.elems) + ↑(putsOf ops) := by
  induction ops generalizing s with
  | nil =>
    constructor
    · simp only [putsOf, List.append_nil]
      exact List.Sublist.refl _
    · show (↑(joinBatches s.events ++ s.items.elems)
          + ↑([] : List (Option α)) : Multiset (Option α)) = _
      simp [putsOf]
  | cons op rest ih =>
    have hop : op ≠ BOp.empty := fun he => hemp (he ▸ List.mem_cons_self op rest)
    have hrest : BOp.empty ∉ rest := fun hm => hemp (List.mem_cons_of_mem op hm)
    have hpp : (bstep op s).panicked = false := bexec_head_not_panicked op rest s hfin
    have hwf2 : (bstep op s).items.len ≤ (bstep op s).items.cap := bstep_wf op s hwf
    have hfin2 : (bexec rest (bstep op s)).panicked = false := hfin
    obtain ⟨ihs, ihm⟩ := ih (bstep op s) hpp hrest hfin2 hwf2
    obtain ⟨sts, stm⟩ := bstep_survivors op s hp hop hpp hwf
    have hexec : bexec (op :: rest) s = bexec rest (bstep op s) := rfl
    rw [hexec]
    constructor
    · have h2 := sts.append_right (putsOf rest)
      have h3 : (joinBatches s.events ++ s.items.elems ++ putsOf [op])
            ++ putsOf rest
          = joinBatches s.events ++ s.items.elems ++ putsOf (op :: rest) := by
        rw [List.append_assoc, ← putsOf_cons]
      exact ihs.trans (h3 ▸ h2)
    · rw [show bDropsOf (op :: rest) s
          = bDropOf op s ++ bDropsOf rest (bstep op s) from rfl,
        putsOf_cons, ← Multiset.coe_add (bDropOf op s),
        ← Multiset.coe_add (putsOf [op])]
      rw [add_comm (↑(bDropOf op s) : Multiset (Option α))
        (↑(bDropsOf rest (bstep op s)) : Multiset (Option α)), ← add_assoc, ihm,
        add_assoc, add_comm
          (↑(putsOf rest) : Multiset (Option α))
          (↑(bDropOf op s) : Multiset (Option α)), ← add_assoc, stm, add_assoc]

/-- Claim C8: a batch-queue dispatch step whose guard holds extracts exactly
`min(batchSize, len(buffer))` items from the head of the buffer — between 1
and `batchSize` items, handed to one worker invocation in FIFO order — and
over any `Empty`-free, panic-free step sequence, with overloaded insertions
allowed under either drop policy, the dispatched batches followed by the
remaining buffer form, in order, a sublist of the previously buffered and
inserted items (so the dispatched units are non-dropped inserted items in
insertion order), and adding the dropped items back restores exactly the
inserted multiset (so nothing but the drops is missing). -/
theorem batch_extraction_and_concat (α : Type) (s : PushBatchQueue α)
    (ops : List (BOp α)) (hp : s.panicked = false) (hbs : 1 ≤ s.batchSize)
    (hr : s.readyToWork = true) (hemp : BOp.empty ∉ ops)
    (hfin : (bexec ops s).panicked = false)
    (hwf : s.items.len ≤ s.items.cap) :
    ((if (s.items.len : Int) < s.batchSize then (s.items.len : Int)
        else s.batchSize).toNat = min s.batchSize.toNat s.items.len
      ∧ 1 ≤ min s.batchSize.toNat s.items.len
      ∧ (min s.batchSize.toNat s.items.len : Int) ≤ s.batchSize
      ∧ (s.get).events
          = PEvent.workerInvoked
              (s.items.elems.take (min s.batchSize.toNat s.items.len)) :: s.events
      ∧ (s.get).items.elems
          = s.items.elems.drop (min s.batchSize.toNat s.items.len))
  ∧ List.Sublist
      (joinBatches ((bexec ops s).events) ++ (bexec ops s).items.elems)
      (joinBatches s.events ++ s.items.elems ++ putsOf ops)
  ∧ (↑(joinBatches ((bexec ops s).events) ++ (bexec ops s).items.elems)
      + ↑(bDropsOf ops s) : Multiset (Option α))
    = ↑(joinBatches s.events ++ s.items.elems) + ↑(putsOf ops) := by
  have hlen : 0 < s.items.len := by
    simp only [PushBatchQueue.readyToWork, Bool.and_eq_true,
      decide_eq_true_eq] at hr
    exact hr.2
  have hn : (if (s.items.len : Int) < s.batchSize then (s.items.len : Int)
      else s.batchSize).toNat = min s.batchSize.toNat s.items.len := by
    split <;> omega
  have hget : s.get = { s with
      availableWorkers := s.availableWorkers - 1,
      items := s.items.dropN (min s.batchSize.toNat s.items.len),
      events := PEvent.workerInvoked
        ((s.items.truncate (min s.batchSize.toNat s.items.len)).elems)
        :: s.events } := by
    unfold PushBatchQueue.get
    rw [if_neg (by simp [hr])]
    dsimp only
    rw [hn]
  have hmin : min s.batchSize.toNat s.items.len ≤ s.items.len := Nat.min_le_right _ _
  obtain ⟨hsub, hmul⟩ := bexec_survivors ops s hp hemp hfin hwf
  refine ⟨⟨hn, by omega, by omega, ?_, ?_⟩, hsub, hmul⟩
  · rw [hget]
    rw [GoSlice.truncate_elems _ _ hmin]
  · rw [hget]
    exact GoSlice.dropN_elems _ _

/-- A started full batch queue (batch size 2, depth 2, holding [1, 2]) with
the drop-oldest policy, handlers registered. -/
def bFullDropOldest : PushBatchQueue Nat :=
  { concurrency := 1, batchSize := 2, availableWorkers := 1, depth := 2
    items := ⟨[some 1, some 2], 2⟩
    started := true, draining := false, overload := 0
    dropOldestOnOverload := true
    onOverloadSet := true, onFirstOverloadSet := true, onDrainedSet := true
    events := [], panicked := false }

/-- Witness for `batch_extraction_and_concat` at a concrete full batch queue
whose run drops an item: inserting 7 evicts the buffered item 1 (drop-oldest),
then one dispatch takes the batch [2, 7]. -/
theorem batch_extraction_and_concat_witness :
    (bFullDropOldest.panicked = false ∧ 1 ≤ bFullDropOldest.batchSize
      ∧ bFullDropOldest.readyToWork = true
      ∧ BOp.empty ∉ [BOp.put 7, BOp.get]
      ∧ (bexec [BOp.put 7, BOp.get] bFullDropOldest).panicked = false
      ∧ bFullDropOldest.items.len ≤ bFullDropOldest.items.cap)
  ∧ List.Sublist
      (joinBatches ((bexec [BOp.put 7, BOp.get] bFullDropOldest).events)
        ++ (bexec [BOp.put 7, BOp.get] bFullDropOldest).items.elems)
      (joinBatches bFullDropOldest.events ++ bFullDropOldest.items.elems
        ++ putsOf [BOp.put 7, BOp.get])
  ∧ (↑(joinBatches ((bexec [BOp.put 7, BOp.get] bFullDropOldest).events)
        ++ (bexec [BOp.put 7, BOp.get] bFullDropOldest).items.elems)
      + ↑(bDropsOf [BOp.put 7, BOp.get] bFullDropOldest) : Multiset (Option Nat))
    = ↑(joinBatches bFullDropOldest.events ++ bFullDropOldest.items.elems)
      + ↑(putsOf [BOp.put 7, BOp.get]) := by
  have h := batch_extraction_and_concat Nat bFullDropOldest [BOp.put 7, BOp.get]
    (by decide) (by decide) (by decide) (by decide) (by decide) (by decide)
  exact ⟨⟨by decide, by decide, by decide, by decide, by decide, by decide⟩,
    h.2.1, h.2.2⟩

end PushComponents
